import Mathlib

/-!
Verification of the stock-price / news sentiment analysis toolkit.

The development shallowly embeds the repository's three Python modules:
`scripts/preprocessing.py` (CSV load/save and date alignment),
`src/quantitative_analysis.py` (class `StockAnalysis`), and
`src/sentiment_analysis.py` (class `FinancialNewsEDA`).

Tabular data (`pandas.DataFrame`) is modelled as a list of named columns of
cell values plus an explicit integer index; CSV files are modelled as a
rectangular grid of cell strings (pandas' quoting layer, which round-trips
arbitrary cell text, is abstracted away).  Machine floats are modelled as
rationals; `NaN`/`NaT` as an explicit missing value.  Calls into external
libraries (TA-Lib, PyNance, TextBlob, scikit-learn) are parameters of the
embedding, constrained only by the libraries' documented contracts.
-/

namespace StockSent


/-! ### Characters and digits -/

/-- Numeric value of an ASCII digit character. -/
def charDigit (c : Char) : Nat := c.toNat - 48

/-- The ASCII digit character for a digit `d < 10`. -/
def digitChar (d : Nat) : Char := Char.ofNat (48 + d)

/-- Boolean test for ASCII digit characters. -/
def isDigitChar (c : Char) : Bool := decide (48 ≤ c.toNat) && decide (c.toNat ≤ 57)

/-! ### Digit lists -/

/-- Most-significant-first decimal digits of a natural number. -/
def natToDigits (n : Nat) : List Nat := (Nat.digits 10 n).reverse

/-- Value of a most-significant-first decimal digit list. -/
def natFromDigits (l : List Nat) : Nat := Nat.ofDigits 10 l.reverse

/-- Left-pad a digit list with zeros to length at least `m`. -/
def padLeft (m : Nat) (l : List Nat) : List Nat := List.replicate (m - l.length) 0 ++ l

/-! ### Decimal literals

`pandas.read_csv` infers numeric columns by parsing cells as number literals;
`DataFrame.to_csv` writes numbers back in decimal notation.  We embed the
decimal fragment of that grammar (optional sign, digits, optional fraction);
the renderer emits a decimal literal that denotes the same rational, which is
what the round-trip claim is about.  Exponent notation and infinities are
outside the modelled fragment. -/

/-- Numeric value of a most-significant-first list of ASCII digit characters. -/
def charsToNat (l : List Char) : Nat := natFromDigits (l.map charDigit)

/-- Parse an unsigned decimal literal: digits with an optional fractional part. -/
def parseUnsigned (cs : List Char) : Option ℚ :=
  let ip := cs.takeWhile (fun c => decide (c ≠ '.'))
  match cs.dropWhile (fun c => decide (c ≠ '.')) with
  | [] =>
    if cs ≠ [] ∧ cs.all isDigitChar then some ((charsToNat cs : ℚ)) else none
  | _ :: fp =>
    if (ip ++ fp) ≠ [] ∧ ip.all isDigitChar ∧ fp.all isDigitChar then
      some (Rat.divInt (charsToNat (ip ++ fp)) ((10 : ℤ) ^ fp.length))
    else none

/-- Parse a signed decimal literal: an optional leading minus sign followed by
an unsigned decimal literal. -/
def parseDecimal (cs : List Char) : Option ℚ :=
  if cs.headD 'x' = '-' then (parseUnsigned cs.tail).map (fun q => -q)
  else parseUnsigned cs

/-- Digit-character string of `M.natAbs`, padded to at least `k + 1` digits. -/
def absDigitChars (M : ℤ) (k : Nat) : List Char :=
  (padLeft (k + 1) (natToDigits M.natAbs)).map digitChar

/-- Render the rational `M / 10^k` as a signed decimal literal with exactly
`k` fractional digits. -/
def renderIntK (M : ℤ) (k : Nat) : List Char :=
  (if M < 0 then ['-'] else []) ++
    (absDigitChars M k).take ((absDigitChars M k).length - k) ++
    '.' :: (absDigitChars M k).drop ((absDigitChars M k).length - k)

/-- Render a rational as a decimal literal with `q.den` fractional digits.
The denominator of any rational produced by `parseDecimal` divides a power of
ten, and for such rationals the rendered literal re-parses to the same value. -/
def renderRatChars (q : ℚ) : List Char :=
  renderIntK (q.num * (10 : ℤ) ^ q.den / (q.den : ℤ)) q.den

/-! ### Timestamps

`pandas` timestamps are modelled structurally as calendar fields plus a flag
recording timezone awareness (the code only ever localizes to UTC, so the
offset itself is always `+00:00`).  The embedded datetime grammar is the
fixed-width `YYYY-MM-DD[ HH:MM:SS[+00:00]]` format that `to_csv` emits and
`read_csv`/`to_datetime` accept; pandas' other accepted input formats are
outside the modelled fragment. -/

structure DateTime where
  year : Nat
  month : Nat
  day : Nat
  hour : Nat
  minute : Nat
  second : Nat
  tz : Bool
deriving DecidableEq

/-- Field ranges guaranteed for every timestamp produced by the embedded
datetime parser. -/
def DateTime.wf (t : DateTime) : Prop :=
  t.year ≤ 9999 ∧ 1 ≤ t.month ∧ t.month ≤ 12 ∧ 1 ≤ t.day ∧ t.day ≤ 31 ∧
    t.hour ≤ 23 ∧ t.minute ≤ 59 ∧ t.second ≤ 59

/-- Two-digit zero-padded decimal rendering. -/
def two (n : Nat) : List Char := [digitChar (n / 10), digitChar (n % 10)]

/-- Four-digit zero-padded decimal rendering. -/
def four (n : Nat) : List Char :=
  [digitChar (n / 1000), digitChar (n / 100 % 10), digitChar (n / 10 % 10), digitChar (n % 10)]

/-- Render a calendar date as `YYYY-MM-DD`. -/
def renderYMD (y m d : Nat) : List Char := four y ++ '-' :: two m ++ '-' :: two d

/-- Render a time of day as `HH:MM:SS`. -/
def renderHMS (h mi s : Nat) : List Char := two h ++ ':' :: two mi ++ ':' :: two s

/-- Render a timestamp the way `str(pandas.Timestamp)` does:
`YYYY-MM-DD HH:MM:SS`, with a `+00:00` suffix when timezone-aware. -/
def renderDT (t : DateTime) : List Char :=
  renderYMD t.year t.month t.day ++
    ' ' :: renderHMS t.hour t.minute t.second ++
    (if t.tz then ['+', '0', '0', ':', '0', '0'] else [])

/-- Decimal value of the character at position `i`. -/
def dAt (cs : List Char) (i : Nat) : Nat := charDigit (cs.getD i 'x')

/-- Whether the character at position `i` is an ASCII digit. -/
def digitAt (cs : List Char) (i : Nat) : Bool := isDigitChar (cs.getD i 'x')

/-- Parse a `YYYY-MM-DD` calendar date (month 1–12, day 1–31). -/
def parseYMD (cs : List Char) : Option (Nat × Nat × Nat) :=
  if cs.length = 10 ∧ cs.getD 4 'x' = '-' ∧ cs.getD 7 'x' = '-' ∧
      digitAt cs 0 ∧ digitAt cs 1 ∧ digitAt cs 2 ∧ digitAt cs 3 ∧
      digitAt cs 5 ∧ digitAt cs 6 ∧ digitAt cs 8 ∧ digitAt cs 9 then
    if 1 ≤ 10 * dAt cs 5 + dAt cs 6 ∧ 10 * dAt cs 5 + dAt cs 6 ≤ 12 ∧
        1 ≤ 10 * dAt cs 8 + dAt cs 9 ∧ 10 * dAt cs 8 + dAt cs 9 ≤ 31 then
      some (1000 * dAt cs 0 + 100 * dAt cs 1 + 10 * dAt cs 2 + dAt cs 3,
        10 * dAt cs 5 + dAt cs 6, 10 * dAt cs 8 + dAt cs 9)
    else none
  else none

/-- Parse a `HH:MM:SS` time of day. -/
def parseHMS (cs : List Char) : Option (Nat × Nat × Nat) :=
  if cs.length = 8 ∧ cs.getD 2 'x' = ':' ∧ cs.getD 5 'x' = ':' ∧
      digitAt cs 0 ∧ digitAt cs 1 ∧ digitAt cs 3 ∧ digitAt cs 4 ∧
      digitAt cs 6 ∧ digitAt cs 7 then
    if 10 * dAt cs 0 + dAt cs 1 ≤ 23 ∧ 10 * dAt cs 3 + dAt cs 4 ≤ 59 ∧
        10 * dAt cs 6 + dAt cs 7 ≤ 59 then
      some (10 * dAt cs 0 + dAt cs 1, 10 * dAt cs 3 + dAt cs 4, 10 * dAt cs 6 + dAt cs 7)
    else none
  else none

/-- Parse a timestamp: date only, date plus time, or date plus time with a
UTC offset. -/
def parseDT (cs : List Char) : Option DateTime :=
  if cs.length = 10 then
    (parseYMD cs).map (fun ymd => DateTime.mk ymd.1 ymd.2.1 ymd.2.2 0 0 0 false)
  else if cs.length = 19 ∧ cs.getD 10 'x' = ' ' then
    (parseYMD (cs.take 10)).bind (fun ymd =>
      (parseHMS (cs.drop 11)).map (fun hms =>
        DateTime.mk ymd.1 ymd.2.1 ymd.2.2 hms.1 hms.2.1 hms.2.2 false))
  else if cs.length = 25 ∧ cs.getD 10 'x' = ' ' ∧
      cs.drop 19 = ['+', '0', '0', ':', '0', '0'] then
    (parseYMD (cs.take 10)).bind (fun ymd =>
      (parseHMS ((cs.drop 11).take 8)).map (fun hms =>
        DateTime.mk ymd.1 ymd.2.1 ymd.2.2 hms.1 hms.2.1 hms.2.2 true))
  else none

/-! ### Cell values

A `Value` is the content of one cell of an in-memory table: missing data
(`NaN`/`NaT`), a number, text, a timestamp, or a calendar date (the result of
`.dt.date`). -/

inductive Value where
  | na : Value
  | num (q : ℚ) : Value
  | str (s : String) : Value
  | vdt (t : DateTime) : Value
  | vdate (y m d : Nat) : Value
deriving DecidableEq

/-- How `read_csv` interprets one cell of an ordinary column: the empty cell
and the `NaN` tokens become missing data, decimal literals become numbers,
everything else stays text. -/
def parseCell (s : String) : Value :=
  if s.data = [] ∨ s = "NaN" ∨ s = "nan" then Value.na
  else (parseDecimal s.data).elim (Value.str s) Value.num

/-- How `to_csv` writes one cell. -/
def renderCell : Value → String
  | Value.na => ""
  | Value.num q => String.mk (renderRatChars q)
  | Value.str s => s
  | Value.vdt t => String.mk (renderDT t)
  | Value.vdate y m d => String.mk (renderYMD y m d)

/-- How `read_csv` with `parse_dates` interprets one cell of the date column;
`none` means the cell does not parse as a date, in which case pandas leaves
the whole column unconverted. -/
def parseDateCell (s : String) : Option Value :=
  if s.data = [] ∨ s = "NaN" ∨ s = "nan" then some Value.na
  else (parseDT s.data).map Value.vdt

/-! ### DataFrames and CSV grids

A `DataFrame` is a list of named columns plus its integer index.  A CSV file
is a rectangular grid of cell strings: a header row followed by data rows
(pandas' quoting layer, which round-trips arbitrary cell text, is not
modelled). -/

structure DataFrame where
  cols : List (String × List Value)
  index : List Nat
deriving DecidableEq

/-- Look up the first column with the given name. -/
def lookupCol : List (String × List Value) → String → Option (List Value)
  | [], _ => none
  | c :: cs, nm => if c.1 = nm then some c.2 else lookupCol cs nm

/-- Column access `df[nm]`. -/
def DataFrame.getCol (df : DataFrame) (nm : String) : Option (List Value) :=
  lookupCol df.cols nm

/-- Replace the column `nm` in place, or append it if absent. -/
def setColAux : List (String × List Value) → String → List Value → List (String × List Value)
  | [], nm, vs => [(nm, vs)]
  | c :: cs, nm, vs => if c.1 = nm then (nm, vs) :: cs else c :: setColAux cs nm vs

/-- Column assignment `df[nm] = vs`. -/
def DataFrame.setCol (df : DataFrame) (nm : String) (vs : List Value) : DataFrame :=
  DataFrame.mk (setColAux df.cols nm vs) df.index

/-- The column names, in order. -/
def DataFrame.names (df : DataFrame) : List String := df.cols.map Prod.fst

/-- The number of rows (the length of the index). -/
def DataFrame.nRows (df : DataFrame) : Nat := df.index.length

/-- Well-formedness: every column has as many entries as the index. -/
def DataFrame.wf (df : DataFrame) : Prop := ∀ c ∈ df.cols, c.2.length = df.index.length

/-- A CSV file as a grid of cell strings. -/
abbrev Grid : Type := List (List String)

/-- Parse one raw column: the column named `dateCol` is converted to
timestamps when every cell parses as one (`parse_dates` semantics), and
otherwise — like every other column — is parsed cell by cell. -/
def colParse (dateCol nm : String) (raw : List String) : List Value :=
  if nm = dateCol ∧ raw.all (fun s => (parseDateCell s).isSome) then
    raw.map (fun s => (parseDateCell s).getD Value.na)
  else raw.map parseCell

/-- `pandas.read_csv(path, parse_dates=[dateCol])`: fails (raises) when the
file is empty, the grid is ragged, or the date column is missing; otherwise
produces a `DataFrame` with a fresh range index. -/
def readCsv (dateCol : String) (g : Grid) : Option DataFrame :=
  match g with
  | [] => none
  | header :: body =>
    if body.all (fun r => decide (r.length = header.length)) ∧ dateCol ∈ header then
      some (DataFrame.mk
        ((List.range header.length).map (fun j =>
          (header.getD j "",
            colParse dateCol (header.getD j "") (body.map (fun r => r.getD j "")))))
        (List.range body.length))
    else none

/-- `DataFrame.to_csv(path, index=False)`: a header row of column names
followed by one row of rendered cells per index entry. -/
def writeCsv (df : DataFrame) : Grid :=
  df.names ::
    (List.range df.nRows).map (fun i => df.cols.map (fun c => renderCell (c.2.getD i Value.na)))

/-! ### scripts/preprocessing.py -/

/-- `load_data(news_path, stock_path)`: read both CSV files with
`parse_dates=['date']`. -/
def load_data (newsG stockG : Grid) : Option (DataFrame × DataFrame) :=
  (readCsv "date" newsG).bind (fun n => (readCsv "date" stockG).map (fun s => (n, s)))

/-- `save_data(df, path)`: write the table with `to_csv(path, index=False)`. -/
def save_data (df : DataFrame) : Grid := writeCsv df

/-- The `.dt.date` accessor on one cell: a timestamp loses its time of day,
`NaT` stays missing, and any other dtype makes the accessor raise (`none`). -/
def dtDateCell : Value → Option Value
  | Value.vdt t => some (Value.vdate t.year t.month t.day)
  | Value.na => some Value.na
  | _ => none

/-- The calendar date of a timestamp, as produced by `.dt.date`. -/
def calendarDate (t : DateTime) : Value := Value.vdate t.year t.month t.day

/-- `align_dates(news_df, stock_df)`: overwrite the `date` column of both
tables with `.dt.date` of itself and return both tables. -/
def align_dates (news stock : DataFrame) : Option (DataFrame × DataFrame) :=
  (news.getCol "date").bind (fun nd =>
    (nd.mapM dtDateCell).bind (fun nd' =>
      (stock.getCol "date").bind (fun sd =>
        (sd.mapM dtDateCell).map (fun sd' =>
          (news.setCol "date" nd', stock.setCol "date" sd')))))

/-! ### Value ordering and sorting (`sort_values`)

Cells are compared through an injective key into a lexicographic product of
linear orders: the constructor tag first (missing values get the largest tag,
matching `na_position='last'`), then the payload (timestamps chronologically
by calendar fields).  On columns of mixed dtypes — where pandas itself
raises — the key still yields some total order; no claim depends on that
case. -/

abbrev DTKey : Type := ℕ ×ₗ (ℕ ×ₗ (ℕ ×ₗ (ℕ ×ₗ (ℕ ×ₗ (ℕ ×ₗ ℕ)))))

abbrev ValKey : Type := ℕ ×ₗ (ℚ ×ₗ (String ×ₗ DTKey))

/-- Chronological key of a timestamp. -/
def dtKey (t : DateTime) : DTKey :=
  toLex (t.year, toLex (t.month, toLex (t.day, toLex (t.hour, toLex (t.minute,
    toLex (t.second, if t.tz then 1 else 0))))))

/-- The all-zero timestamp key, used as padding for other constructors. -/
def dtKey0 : DTKey := toLex (0, toLex (0, toLex (0, toLex (0, toLex (0, toLex (0, 0))))))

/-- Sort key of a cell value. -/
def Value.key : Value → ValKey
  | Value.num q => toLex (0, toLex (q, toLex ("", dtKey0)))
  | Value.vdt t => toLex (1, toLex (0, toLex ("", dtKey t)))
  | Value.vdate y m d => toLex (2, toLex (0, toLex ("",
      toLex (y, toLex (m, toLex (d, toLex (0, toLex (0, toLex (0, 0)))))))))
  | Value.str s => toLex (3, toLex (0, toLex (s, dtKey0)))
  | Value.na => toLex (4, toLex (0, toLex ("", dtKey0)))

/-- The cell order used by `sort_values` (ascending, missing values last). -/
def Value.le (a b : Value) : Prop := a.key ≤ b.key

instance : DecidableRel Value.le := fun a b => inferInstanceAs (Decidable (a.key ≤ b.key))

instance : IsTotal Value Value.le := ⟨fun a b => le_total a.key b.key⟩

instance : IsTrans Value Value.le := ⟨fun _ _ _ h1 h2 => le_trans h1 h2⟩

/-- A row record during sorting: sort key, original index label, row cells. -/
abbrev RowRec : Type := Value × Nat × List Value

/-- Row comparison: by the sort key. -/
def rowLE (a b : RowRec) : Prop := Value.le a.1 b.1

instance : DecidableRel rowLE := fun a b => inferInstanceAs (Decidable (Value.le a.1 b.1))

instance : IsTotal RowRec rowLE := ⟨fun a b => le_total a.1.key b.1.key⟩

instance : IsTrans RowRec rowLE := ⟨fun _ _ _ h1 h2 => le_trans h1 h2⟩

/-- The row records of a table, keyed by the given column values. -/
def DataFrame.rowsWithKey (df : DataFrame) (keyvs : List Value) : List RowRec :=
  (List.range df.index.length).map (fun i =>
    (keyvs.getD i Value.na, df.index.getD i 0, df.cols.map (fun c => c.2.getD i Value.na)))

/-- Rebuild named columns from a list of rows. -/
def colsFromRows : List String → List (List Value) → List (String × List Value)
  | [], _ => []
  | nm :: nms, rows =>
    (nm, rows.map (fun r => r.getD 0 Value.na)) :: colsFromRows nms (rows.map List.tail)

/-- `df.sort_values('date')`: sort the rows by the `date` column, carrying the
index along; raises (`none`) when the column is missing. -/
def DataFrame.sortValuesDate (df : DataFrame) : Option DataFrame :=
  (df.getCol "date").map (fun keyvs =>
    DataFrame.mk
      (colsFromRows df.names
        ((List.insertionSort rowLE (df.rowsWithKey keyvs)).map (fun r => r.2.2)))
      ((List.insertionSort rowLE (df.rowsWithKey keyvs)).map (fun r => r.2.1)))

/-- `df.reset_index(drop=True)`: replace the index by `0..n-1`. -/
def resetIndex (df : DataFrame) : DataFrame :=
  DataFrame.mk df.cols (List.range df.index.length)

/-- Python's `str.lower` on one character (ASCII letters only). -/
def lowerChar (c : Char) : Char :=
  if 65 ≤ c.toNat ∧ c.toNat ≤ 90 then Char.ofNat (c.toNat + 32) else c

/-- `df.columns.str.lower()` on one name. -/
def lowerName (s : String) : String := String.mk (s.data.map lowerChar)

/-- Lower-case all column names. -/
def lowerCols (df : DataFrame) : DataFrame :=
  DataFrame.mk (df.cols.map (fun c => (lowerName c.1, c.2))) df.index

/-- `self.df['ticker'] = ticker`: broadcast the scalar along the index. -/
def addTickerCol (tk : String) (df : DataFrame) : DataFrame :=
  df.setCol "ticker" (List.replicate df.index.length (Value.str tk))

/-- Exceptions raised by the embedded methods. -/
inductive PyErr where
  | valueError : PyErr
  | keyError : PyErr
  | readError : PyErr
deriving DecidableEq

/-- The body of `StockAnalysis.__init__` after the data source is chosen:
lower-case the column names, add the ticker column, sort by date (KeyError
when there is no `date` column), and reset the index. -/
def stockInitFrom (tk : String) (df0 : DataFrame) : Except PyErr DataFrame :=
  match (addTickerCol tk (lowerCols df0)).sortValuesDate with
  | some df3 => Except.ok (resetIndex df3)
  | none => Except.error PyErr.keyError

/-- `StockAnalysis.__init__(ticker, df, file_path)`: uses the DataFrame when
given (a private copy — the aliasing is modelled separately on the heap),
else loads the file with `parse_dates=['Date']`, else raises ValueError. -/
def stockInit (tk : String) (dfOpt : Option DataFrame) (fileOpt : Option Grid) :
    Except PyErr DataFrame :=
  match dfOpt, fileOpt with
  | some df, _ => stockInitFrom tk df
  | none, some g =>
    match readCsv "Date" g with
    | some df => stockInitFrom tk df
    | none => Except.error PyErr.readError
  | none, none => Except.error PyErr.valueError

/-- Position of the first column with the given name. -/
def colIdx : List String → String → Nat
  | [], _ => 0
  | a :: t, nm => if a = nm then 0 else colIdx t nm + 1

/-! ### src/quantitative_analysis.py — the StockAnalysis methods

TA-Lib and PyNance are external numeric libraries; they enter the embedding
as parameters, constrained only by preserving the series length. -/

structure TALib where
  SMA : Nat → List Value → List Value
  RSI : Nat → List Value → List Value
  MACD : List Value → List Value × List Value × List Value

/-- The library contract: an indicator over a series has one value per row. -/
def TALib.wf (lib : TALib) : Prop :=
  (∀ n xs, (lib.SMA n xs).length = xs.length) ∧
    (∀ n xs, (lib.RSI n xs).length = xs.length) ∧
    (∀ xs, (lib.MACD xs).1.length = xs.length ∧ (lib.MACD xs).2.1.length = xs.length ∧
      (lib.MACD xs).2.2.length = xs.length)

structure PyNanceInd where
  volatility : List Value → List Value
  momentum : Nat → List Value → List Value

/-- The library contract: one metric value per row. -/
def PyNanceInd.wf (p : PyNanceInd) : Prop :=
  (∀ xs, (p.volatility xs).length = xs.length) ∧
    (∀ n xs, (p.momentum n xs).length = xs.length)

/-- One step of `pct_change`: `x/y - 1`.  pandas produces `±inf` when the
previous value is zero and `NaN` on missing input; infinities are outside the
modelled fragment, so that cell is left missing (no claim depends on it). -/
def ratioMinusOne (a b : Value) : Value :=
  match a, b with
  | Value.num x, Value.num y => if y = 0 then Value.na else Value.num (x / y - 1)
  | _, _ => Value.na

/-- `Series.pct_change()`: first entry missing, then the relative change. -/
def pctChange (xs : List Value) : List Value :=
  (List.range xs.length).map (fun i =>
    if i = 0 then Value.na else ratioMinusOne (xs.getD i Value.na) (xs.getD (i - 1) Value.na))

/-- `Series.replace(0, 1)` on one cell. -/
def replaceZeroOne (v : Value) : Value :=
  match v with
  | Value.num q => if q = 0 then Value.num 1 else Value.num q
  | v => v

/-- Cell-wise division as used for the split adjustment.  A missing operand
propagates (pandas semantics); a zero divisor or non-numeric operand is
`none` — the division is undefined there, which claim C10 shows is never
reached after `replace(0, 1)`. -/
def divVal : Value → Value → Option Value
  | Value.num a, Value.num b => if b = 0 then none else some (Value.num (a / b))
  | Value.num _, Value.na => some Value.na
  | Value.na, Value.num _ => some Value.na
  | Value.na, Value.na => some Value.na
  | _, _ => none

/-- Row-aligned division of two equally long columns. -/
def zipDivM : List Value → List Value → Option (List Value)
  | [], [] => some []
  | a :: as', b :: bs => (divVal a b).bind (fun v => (zipDivM as' bs).map (fun vs => v :: vs))
  | _, _ => none

/-- The public methods of `StockAnalysis`. -/
inductive SMethod where
  | plotOhlcPrices | plotCandlestick | addTechnicalIndicators | computeDailyReturns
  | adjustForSplits | plotPriceAndMa | plotVolume | plotMacd | plotRsi
  | calculatePynanceMetrics | plotVolatility | plotMomentum | plotDividends | getData
deriving DecidableEq

/-- One method call on the object's table.  `none` models a raised exception
(missing input column).  The plotting methods and `get_data` never assign to
`self.df`, so they leave the table unchanged; whether their chart rendering
succeeds is not modelled. -/
def stepStock (lib : TALib) (pyn : PyNanceInd) (m : SMethod) (df : DataFrame) :
    Option DataFrame :=
  match m with
  | SMethod.addTechnicalIndicators =>
    (df.getCol "close").map (fun close =>
      (((((df.setCol "MA_20" (lib.SMA 20 close)).setCol "MA_50" (lib.SMA 50 close)).setCol
        "RSI" (lib.RSI 14 close)).setCol "MACD" (lib.MACD close).1).setCol
        "MACD_signal" (lib.MACD close).2.1).setCol "MACD_hist" (lib.MACD close).2.2)
  | SMethod.computeDailyReturns =>
    (df.getCol "close").map (fun close => df.setCol "daily_return" (pctChange close))
  | SMethod.adjustForSplits =>
    (df.getCol "close").bind (fun close =>
      if "stock splits" ∈ df.names then
        (df.getCol "stock splits").bind (fun splits =>
          (zipDivM close (splits.map replaceZeroOne)).map (fun adj =>
            df.setCol "adjusted_close" adj))
      else some (df.setCol "adjusted_close" close))
  | SMethod.calculatePynanceMetrics =>
    (df.getCol "close").map (fun close =>
      (df.setCol "volatility" (pyn.volatility close)).setCol "momentum" (pyn.momentum 10 close))
  | _ => some df

/-- Run a sequence of method calls; a raised exception aborts the run. -/
def runStock (lib : TALib) (pyn : PyNanceInd) : List SMethod → DataFrame → Option DataFrame
  | [], df => some df
  | m :: ms, df => (stepStock lib pyn m df).bind (runStock lib pyn ms)

/-! ### src/sentiment_analysis.py — the FinancialNewsEDA methods

TextBlob and the scikit-learn topic model are parameters of the embedding:
`polarity` is TextBlob's sentence polarity (documented range `[-1, 1]`),
`lda` maps the cleaned-headline column to the per-row dominant topic. -/

structure NLPLib where
  polarity : String → ℚ
  lda : List Value → List Value

/-- TextBlob's documented contract: polarity lies in `[-1, 1]`. -/
def NLPLib.polarity_wf (nlp : NLPLib) : Prop :=
  ∀ s, -1 ≤ nlp.polarity s ∧ nlp.polarity s ≤ 1

/-- The topic model assigns one dominant topic per row. -/
def NLPLib.lda_wf (nlp : NLPLib) : Prop := ∀ xs, (nlp.lda xs).length = xs.length

/-- `get_sentiment` from `sentiment_analysis`: 0 for missing headlines, the
TextBlob polarity for text; `TextBlob(x)` raises on non-string input. -/
def getSentimentVal (pol : String → ℚ) : Value → Option Value
  | Value.na => some (Value.num 0)
  | Value.str s => some (Value.num (pol s))
  | _ => none

/-- `pd.to_datetime(x, errors='coerce', utc=True)` on one cell: parseable
text becomes a UTC-aware timestamp, a naive timestamp is localized, anything
unparseable is coerced to `NaT`.  pandas' epoch-number interpretation of
numeric cells is outside the modelled fragment (the claims' hypotheses
restrict to text, timestamp and missing cells). -/
def toDatetimeUTC : Value → Value
  | Value.str s =>
    match parseDT s.data with
    | some t => Value.vdt (DateTime.mk t.year t.month t.day t.hour t.minute t.second true)
    | none => Value.na
  | Value.vdt t => Value.vdt (DateTime.mk t.year t.month t.day t.hour t.minute t.second true)
  | _ => Value.na

/-- `.dt.date` on a cell of a datetime column (timestamps or `NaT` only). -/
def dtDateTotal : Value → Value
  | Value.vdt t => Value.vdate t.year t.month t.day
  | _ => Value.na

/-- Python's `len` on a headline cell; raises (`none`) on non-strings,
including missing cells (`len(nan)` is a `TypeError`). -/
def lenVal : Value → Option Value
  | Value.str s => some (Value.num (s.data.length : ℚ))
  | _ => none

/-- The publisher-domain extraction: the part after the last `@` of a string
containing one, else the literal `No Email`. -/
def domainOf : Value → Value
  | Value.str s =>
    if '@' ∈ s.data then
      Value.str (String.mk ((s.data.reverse.takeWhile (fun c => decide (c ≠ '@'))).reverse))
    else Value.str "No Email"
  | _ => Value.str "No Email"

/-- `.str.lower()` followed by replacing `[^a-zA-Z]` with a space; the `.str`
accessor leaves non-string cells missing. -/
def cleanVal : Value → Value
  | Value.str s =>
    Value.str (String.mk (s.data.map (fun c =>
      if 97 ≤ (lowerChar c).toNat ∧ (lowerChar c).toNat ≤ 122 then lowerChar c else ' ')))
  | _ => Value.na

/-- `.dt.hour` on a cell of a datetime column. -/
def hourOf : Value → Option Value
  | Value.vdt t => some (Value.num (t.hour : ℚ))
  | Value.na => some Value.na
  | _ => none

/-- The public methods of `FinancialNewsEDA`. -/
inductive EMethod where
  | convertDates | headlineLengthStats | articlesPerPublisher | publicationDateTrends
  | analyzePublisherDomains | plotPublicationHour | plotRollingAverage
  | preprocessText | performLda | sentimentAnalysis
deriving DecidableEq

/-- One method call on the object's news table; `none` models a raised
exception.  Methods that only aggregate and plot leave the table unchanged. -/
def stepEda (nlp : NLPLib) (m : EMethod) (df : DataFrame) : Option DataFrame :=
  match m with
  | EMethod.convertDates =>
    (df.getCol "date").map (fun d =>
      (df.setCol "date" (d.map toDatetimeUTC)).setCol "date_only"
        ((d.map toDatetimeUTC).map dtDateTotal))
  | EMethod.headlineLengthStats =>
    (df.getCol "headline").bind (fun h =>
      (h.mapM lenVal).map (fun ls => df.setCol "headline_length" ls))
  | EMethod.articlesPerPublisher =>
    (df.getCol "publisher").map (fun _ => df)
  | EMethod.publicationDateTrends =>
    (df.getCol "date_only").map (fun _ => df)
  | EMethod.analyzePublisherDomains =>
    (df.getCol "publisher").map (fun p => df.setCol "publisher_domain" (p.map domainOf))
  | EMethod.plotPublicationHour =>
    (df.getCol "date").bind (fun d =>
      (d.mapM hourOf).map (fun hs => df.setCol "hour" hs))
  | EMethod.plotRollingAverage =>
    (df.getCol "date_only").map (fun _ => df)
  | EMethod.preprocessText =>
    (df.getCol "headline").map (fun h => df.setCol "clean_headline" (h.map cleanVal))
  | EMethod.performLda =>
    (df.getCol "clean_headline").map (fun h => df.setCol "dominant_topic" (nlp.lda h))
  | EMethod.sentimentAnalysis =>
    (df.getCol "headline").bind (fun h =>
      (h.mapM (getSentimentVal nlp.polarity)).map (fun ss => df.setCol "sentiment" ss))

/-- Run a sequence of EDA method calls. -/
def runEda (nlp : NLPLib) : List EMethod → DataFrame → Option DataFrame
  | [], df => some df
  | m :: ms, df => (stepEda nlp m df).bind (runEda nlp ms)

/-! ### Heap model

The constructors of both classes copy the caller's table (`df.copy()`); to
state that the caller's object is never mutated, object identity is modelled
by a heap of tables addressed by allocation order. -/

structure Heap where
  cells : List DataFrame

/-- Dereference (a dangling reference yields an empty table). -/
def Heap.get (h : Heap) (r : Nat) : DataFrame := h.cells.getD r (DataFrame.mk [] [])

/-- Overwrite the table at a reference. -/
def Heap.set (h : Heap) (r : Nat) (df : DataFrame) : Heap := Heap.mk (h.cells.set r df)

/-- Allocate a fresh object holding the given table. -/
def Heap.alloc (h : Heap) (df : DataFrame) : Heap × Nat :=
  (Heap.mk (h.cells ++ [df]), h.cells.length)

/-- `StockAnalysis(ticker, df=heap[r])`: copy the caller's table, transform
the copy, and store it in a fresh object. -/
def stockNewH (h : Heap) (tk : String) (r : Nat) : Except PyErr (Heap × Nat) :=
  match stockInitFrom tk (h.get r) with
  | Except.ok df => Except.ok (h.alloc df)
  | Except.error e => Except.error e

/-- `FinancialNewsEDA(news_data=heap[r])`: store a copy of the caller's
table in a fresh object. -/
def edaNewH (h : Heap) (r : Nat) : Heap × Nat := h.alloc (h.get r)

/-- Run stock methods against the object at reference `sr`. -/
def runStockH (lib : TALib) (pyn : PyNanceInd) : List SMethod → Heap → Nat → Option Heap
  | [], h, _ => some h
  | m :: ms, h, sr =>
    (stepStock lib pyn m (h.get sr)).bind (fun df' => runStockH lib pyn ms (h.set sr df') sr)

/-- Run EDA methods against the object at reference `sr`. -/
def runEdaH (nlp : NLPLib) : List EMethod → Heap → Nat → Option Heap
  | [], h, _ => some h
  | m :: ms, h, sr =>
    (stepEda nlp m (h.get sr)).bind (fun df' => runEdaH nlp ms (h.set sr df') sr)

/-- The columns a `StockAnalysis` method assigns to. -/
def outputColsS : SMethod → List String
  | SMethod.addTechnicalIndicators =>
    ["MA_20", "MA_50", "RSI", "MACD", "MACD_signal", "MACD_hist"]
  | SMethod.computeDailyReturns => ["daily_return"]
  | SMethod.adjustForSplits => ["adjusted_close"]
  | SMethod.calculatePynanceMetrics => ["volatility", "momentum"]
  | _ => []

/-- The columns a `FinancialNewsEDA` method assigns to. -/
def outputColsE : EMethod → List String
  | EMethod.convertDates => ["date", "date_only"]
  | EMethod.headlineLengthStats => ["headline_length"]
  | EMethod.analyzePublisherDomains => ["publisher_domain"]
  | EMethod.plotPublicationHour => ["hour"]
  | EMethod.preprocessText => ["clean_headline"]
  | EMethod.performLda => ["dominant_topic"]
  | EMethod.sentimentAnalysis => ["sentiment"]
  | _ => []

/-- A trivial TA-Lib instance used to instantiate the library parameters. -/
def idTALib : TALib := TALib.mk (fun _ xs => xs) (fun _ xs => xs) (fun xs => (xs, xs, xs))

/-- A trivial PyNance instance used to instantiate the library parameters. -/
def idPyNance : PyNanceInd := PyNanceInd.mk (fun xs => xs) (fun _ xs => xs)

/-- A trivial NLP instance (zero polarity, identity topic model). -/
def zeroNLP : NLPLib := NLPLib.mk (fun _ => 0) (fun xs => xs)

theorem toNat_ofNat_valid (n : Nat) (h : n.isValidChar) : (Char.ofNat n).toNat = n := by
  rw [Char.ofNat, dif_pos h]
  rfl

theorem isValidChar_of_lt (n : Nat) (h : n < 55296) : n.isValidChar :=
  Or.inl h

theorem digitChar_toNat (d : Nat) (h : d < 10) : (digitChar d).toNat = 48 + d :=
  toNat_ofNat_valid _ (isValidChar_of_lt _ (by omega))

theorem charDigit_digitChar (d : Nat) (h : d < 10) : charDigit (digitChar d) = d := by
  simp [charDigit, digitChar_toNat d h]

theorem isDigitChar_digitChar (d : Nat) (h : d < 10) : isDigitChar (digitChar d) = true := by
  simp [isDigitChar, digitChar_toNat d h]
  omega

theorem char_eq_of_toNat_eq {a b : Char} (h : a.toNat = b.toNat) : a = b := by
  have h1 := Char.ofNat_toNat a
  rw [h, Char.ofNat_toNat] at h1
  exact h1.symm

theorem digitChar_ne_of_toNat (d : Nat) (h : d < 10) (c : Char) (hc : ¬ (48 ≤ c.toNat ∧ c.toNat ≤ 57)) :
    digitChar d ≠ c := by
  intro he
  apply hc
  have := digitChar_toNat d h
  rw [he] at this
  omega

theorem digitChar_ne_dot (d : Nat) (h : d < 10) : digitChar d ≠ '.' := by
  apply digitChar_ne_of_toNat d h
  decide

theorem digitChar_ne_dash (d : Nat) (h : d < 10) : digitChar d ≠ '-' := by
  apply digitChar_ne_of_toNat d h
  decide

theorem digitChar_ne_plus (d : Nat) (h : d < 10) : digitChar d ≠ '+' := by
  apply digitChar_ne_of_toNat d h
  decide

theorem natFromDigits_natToDigits (n : Nat) : natFromDigits (natToDigits n) = n := by
  simp [natFromDigits, natToDigits, Nat.ofDigits_digits]

theorem natToDigits_lt (n : Nat) : ∀ d ∈ natToDigits n, d < 10 := by
  intro d hd
  exact Nat.digits_lt_base (by omega) (List.mem_reverse.mp hd)

theorem padLeft_length (m : Nat) (l : List Nat) : (padLeft m l).length = max m l.length := by
  simp [padLeft]
  omega

theorem ofDigits_replicate_zero (z : Nat) : Nat.ofDigits 10 (List.replicate z 0) = 0 := by
  induction z with
  | zero => simp [Nat.ofDigits]
  | succ k ih => simp [List.replicate_succ, Nat.ofDigits_cons, ih]

theorem natFromDigits_padLeft (m : Nat) (l : List Nat) :
    natFromDigits (padLeft m l) = natFromDigits l := by
  simp only [natFromDigits, padLeft, List.reverse_append, Nat.ofDigits_append,
    List.reverse_replicate, ofDigits_replicate_zero]
  simp

theorem padLeft_lt (m : Nat) (l : List Nat) (hl : ∀ d ∈ l, d < 10) :
    ∀ d ∈ padLeft m l, d < 10 := by
  intro d hd
  rcases List.mem_append.mp hd with h | h
  · have := List.eq_of_mem_replicate h
    omega
  · exact hl d h

theorem dvd_ten_pow_self {d j : Nat} (hd : d ∣ 10 ^ j) : d ∣ 10 ^ d := by
  have h10 : (10 : ℕ) ^ j = 2 ^ j * 5 ^ j := by
    rw [← Nat.mul_pow]
  rw [h10] at hd
  obtain ⟨⟨⟨d1, hd1⟩, ⟨d2, hd2⟩⟩, heq⟩ := Nat.prodDvdAndDvdOfDvdProd hd
  simp only at heq
  obtain ⟨a, _, rfl⟩ := (Nat.dvd_prime_pow Nat.prime_two).mp hd1
  obtain ⟨b, _, rfl⟩ := (Nat.dvd_prime_pow (by norm_num)).mp hd2
  subst heq
  have ha' : a ≤ 2 ^ a * 5 ^ b := by
    have h1 : a < 2 ^ a := Nat.lt_two_pow a
    have h2 : 0 < 5 ^ b := Nat.pos_pow_of_pos b (by norm_num)
    calc a ≤ 2 ^ a := le_of_lt h1
    _ = 2 ^ a * 1 := (mul_one _).symm
    _ ≤ 2 ^ a * 5 ^ b := Nat.mul_le_mul_left _ h2
  have hb' : b ≤ 2 ^ a * 5 ^ b := by
    have h1 : b < 5 ^ b := Nat.lt_pow_self (by norm_num) b
    have h2 : 0 < 2 ^ a := Nat.pos_pow_of_pos a (by norm_num)
    calc b ≤ 5 ^ b := le_of_lt h1
    _ = 1 * 5 ^ b := (one_mul _).symm
    _ ≤ 2 ^ a * 5 ^ b := Nat.mul_le_mul_right _ h2
  calc 2 ^ a * 5 ^ b ∣ 2 ^ (2 ^ a * 5 ^ b) * 5 ^ (2 ^ a * 5 ^ b) :=
        mul_dvd_mul (pow_dvd_pow 2 ha') (pow_dvd_pow 5 hb')
  _ = 10 ^ (2 ^ a * 5 ^ b) := by rw [← Nat.mul_pow]

theorem isDigitChar_ne_dot {c : Char} (h : isDigitChar c = true) : c ≠ '.' := by
  intro he
  subst he
  simp [isDigitChar] at h

theorem isDigitChar_ne_dash {c : Char} (h : isDigitChar c = true) : c ≠ '-' := by
  intro he
  subst he
  simp [isDigitChar] at h

theorem parseUnsigned_split (ds : List Char) (k : Nat) (hlen : k + 1 ≤ ds.length)
    (hdig : ∀ c ∈ ds, isDigitChar c = true) :
    parseUnsigned (ds.take (ds.length - k) ++ '.' :: ds.drop (ds.length - k)) =
      some (Rat.divInt (charsToNat ds) ((10 : ℤ) ^ k)) := by
  have hip : ∀ c ∈ ds.take (ds.length - k), (fun c => decide (c ≠ '.')) c = true := by
    intro c hc
    simp only [decide_eq_true_eq]
    exact isDigitChar_ne_dot (hdig c (List.take_subset _ _ hc))
  have htake : (ds.take (ds.length - k) ++ '.' :: ds.drop (ds.length - k)).takeWhile
      (fun c => decide (c ≠ '.')) = ds.take (ds.length - k) := by
    rw [List.takeWhile_append_of_pos hip, List.takeWhile_cons_of_neg]
    · simp
    · simp
  have hdrop : (ds.take (ds.length - k) ++ '.' :: ds.drop (ds.length - k)).dropWhile
      (fun c => decide (c ≠ '.')) = '.' :: ds.drop (ds.length - k) := by
    rw [List.dropWhile_append_of_pos hip, List.dropWhile_cons_of_neg]
    simp
  rw [parseUnsigned]
  simp only [htake, hdrop]
  rw [if_pos]
  · rw [List.take_append_drop, List.length_drop]
    have hk : ds.length - (ds.length - k) = k := by omega
    rw [hk]
  · refine ⟨?_, ?_, ?_⟩
    · rw [List.take_append_drop]
      intro he
      rw [he] at hlen
      simp at hlen
    · rw [List.all_eq_true]
      intro c hc
      exact hdig c (List.take_subset _ _ hc)
    · rw [List.all_eq_true]
      intro c hc
      exact hdig c (List.drop_subset _ _ hc)

theorem charsToNat_pad (A k : Nat) :
    charsToNat ((padLeft (k + 1) (natToDigits A)).map digitChar) = A := by
  rw [charsToNat, List.map_map]
  have hmap : (padLeft (k + 1) (natToDigits A)).map (charDigit ∘ digitChar) =
      padLeft (k + 1) (natToDigits A) := by
    rw [List.map_congr_left, List.map_id]
    intro d hd
    exact charDigit_digitChar d (padLeft_lt _ _ (natToDigits_lt A) d hd)
  rw [hmap, natFromDigits_padLeft, natFromDigits_natToDigits]

theorem parseDecimal_renderIntK (M : ℤ) (k : Nat) :
    parseDecimal (renderIntK M k) = some (Rat.divInt M ((10 : ℤ) ^ k)) := by
  rw [renderIntK]
  set ds := absDigitChars M k with hds
  have hdig : ∀ c ∈ ds, isDigitChar c = true := by
    intro c hc
    rw [hds, absDigitChars] at hc
    obtain ⟨d, hd, rfl⟩ := List.mem_map.mp hc
    exact isDigitChar_digitChar d (padLeft_lt _ _ (natToDigits_lt _) d hd)
  have hlen : k + 1 ≤ ds.length := by
    rw [hds, absDigitChars, List.length_map, padLeft_length]
    omega
  have hsplit := parseUnsigned_split ds k hlen hdig
  have hval : charsToNat ds = M.natAbs := by
    rw [hds, absDigitChars, charsToNat_pad]
  rw [hval] at hsplit
  by_cases hneg : M < 0
  · have habs : (M.natAbs : ℤ) = -M := Int.ofNat_natAbs_of_nonpos (le_of_lt hneg)
    simp only [if_pos hneg, List.singleton_append, List.cons_append, parseDecimal,
      List.headD_cons, List.tail_cons, eq_self_iff_true, if_true, List.nil_append]
    rw [hsplit, Option.map_some', habs, Rat.neg_divInt, neg_neg]
  · simp only [if_neg hneg, List.nil_append]
    have hhead : (ds.take (ds.length - k) ++ '.' :: ds.drop (ds.length - k)).headD 'x' ≠ '-' := by
      rcases hip : ds.take (ds.length - k) with _ | ⟨c, ip'⟩
      · exfalso
        have hlt := congrArg List.length hip
        rw [List.length_take] at hlt
        simp only [List.length_nil] at hlt
        omega
      · have hc : isDigitChar c = true := by
          apply hdig
          apply List.take_subset _ _
          rw [hip]
          exact List.mem_cons_self _ _
        simp only [List.cons_append, List.headD_cons]
        exact isDigitChar_ne_dash hc
    rw [parseDecimal, if_neg hhead, hsplit]
    have habs : (M.natAbs : ℤ) = M := Int.natAbs_of_nonneg (le_of_not_lt hneg)
    rw [habs]

theorem parseDecimal_renderRatChars (q : ℚ) (j : Nat) (hden : q.den ∣ 10 ^ j) :
    parseDecimal (renderRatChars q) = some q := by
  rw [renderRatChars, parseDecimal_renderIntK]
  congr 1
  have hdvd : q.den ∣ 10 ^ q.den := dvd_ten_pow_self hden
  have hdvdZ : (q.den : ℤ) ∣ q.num * (10 : ℤ) ^ q.den := by
    apply Dvd.dvd.mul_left
    exact_mod_cast Int.natCast_dvd_natCast.mpr hdvd
  have hM := Int.ediv_mul_cancel hdvdZ
  have hden0 : ((q.den : ℤ) : ℚ) ≠ 0 := by
    exact_mod_cast q.den_ne_zero
  have hp0 : ((10 : ℚ)) ^ q.den ≠ 0 := pow_ne_zero _ (by norm_num)
  have key : ((q.num * (10 : ℤ) ^ q.den / (q.den : ℤ) : ℤ) : ℚ) * ((q.den : ℤ) : ℚ) =
      (q.num : ℚ) * (10 : ℚ) ^ q.den := by
    have hc := congrArg (fun z : ℤ => (z : ℚ)) hM
    push_cast at hc
    push_cast
    exact hc
  have hq : q * ((q.den : ℤ) : ℚ) = (q.num : ℚ) := by
    push_cast
    rw [mul_comm]
    exact_mod_cast Rat.den_mul_eq_num q
  rw [Rat.divInt_eq_div]
  rw [div_eq_iff (by push_cast; exact hp0)]
  apply mul_right_cancel₀ hden0
  rw [key, ← hq]
  push_cast
  ring

theorem parseYMD_render (y m d : Nat) (hy : y ≤ 9999) (hm1 : 1 ≤ m) (hm2 : m ≤ 12)
    (hd1 : 1 ≤ d) (hd2 : d ≤ 31) : parseYMD (renderYMD y m d) = some (y, m, d) := by
  have e0 : dAt (renderYMD y m d) 0 = y / 1000 := charDigit_digitChar _ (by omega)
  have e1 : dAt (renderYMD y m d) 1 = y / 100 % 10 := charDigit_digitChar _ (by omega)
  have e2 : dAt (renderYMD y m d) 2 = y / 10 % 10 := charDigit_digitChar _ (by omega)
  have e3 : dAt (renderYMD y m d) 3 = y % 10 := charDigit_digitChar _ (by omega)
  have e5 : dAt (renderYMD y m d) 5 = m / 10 := charDigit_digitChar _ (by omega)
  have e6 : dAt (renderYMD y m d) 6 = m % 10 := charDigit_digitChar _ (by omega)
  have e8 : dAt (renderYMD y m d) 8 = d / 10 := charDigit_digitChar _ (by omega)
  have e9 : dAt (renderYMD y m d) 9 = d % 10 := charDigit_digitChar _ (by omega)
  rw [parseYMD, if_pos, if_pos]
  · rw [e0, e1, e2, e3, e5, e6, e8, e9]
    have hy' : 1000 * (y / 1000) + 100 * (y / 100 % 10) + 10 * (y / 10 % 10) + y % 10 = y := by
      omega
    have hm' : 10 * (m / 10) + m % 10 = m := by omega
    have hd' : 10 * (d / 10) + d % 10 = d := by omega
    rw [hy', hm', hd']
  · rw [e5, e6, e8, e9]
    omega
  · refine ⟨rfl, rfl, rfl, ?_, ?_, ?_, ?_, ?_, ?_, ?_, ?_⟩ <;>
      exact isDigitChar_digitChar _ (by omega)

theorem parseHMS_render (h mi s : Nat) (hh : h ≤ 23) (hm : mi ≤ 59) (hs : s ≤ 59) :
    parseHMS (renderHMS h mi s) = some (h, mi, s) := by
  have e0 : dAt (renderHMS h mi s) 0 = h / 10 := charDigit_digitChar _ (by omega)
  have e1 : dAt (renderHMS h mi s) 1 = h % 10 := charDigit_digitChar _ (by omega)
  have e3 : dAt (renderHMS h mi s) 3 = mi / 10 := charDigit_digitChar _ (by omega)
  have e4 : dAt (renderHMS h mi s) 4 = mi % 10 := charDigit_digitChar _ (by omega)
  have e6 : dAt (renderHMS h mi s) 6 = s / 10 := charDigit_digitChar _ (by omega)
  have e7 : dAt (renderHMS h mi s) 7 = s % 10 := charDigit_digitChar _ (by omega)
  rw [parseHMS, if_pos, if_pos]
  · rw [e0, e1, e3, e4, e6, e7]
    have h' : 10 * (h / 10) + h % 10 = h := by omega
    have m' : 10 * (mi / 10) + mi % 10 = mi := by omega
    have s' : 10 * (s / 10) + s % 10 = s := by omega
    rw [h', m', s']
  · rw [e0, e1, e3, e4, e6, e7]
    omega
  · refine ⟨rfl, rfl, rfl, ?_, ?_, ?_, ?_, ?_, ?_⟩ <;>
      exact isDigitChar_digitChar _ (by omega)

theorem parseDT_renderDT (t : DateTime) (hwf : t.wf) : parseDT (renderDT t) = some t := by
  obtain ⟨y, m, d, h, mi, s, tz⟩ := t
  obtain ⟨h1, h2, h3, h4, h5, h6, h7, h8⟩ := hwf
  cases tz with
  | false =>
    have hlen : (renderDT (DateTime.mk y m d h mi s false)).length = 19 := by
      simp [renderDT, renderYMD, renderHMS, four, two]
    rw [parseDT, if_neg (by rw [hlen]; omega), if_pos]
    · have ht : (renderDT (DateTime.mk y m d h mi s false)).take 10 = renderYMD y m d := by
        simp [renderDT, renderYMD, renderHMS, four, two]
      have hd : (renderDT (DateTime.mk y m d h mi s false)).drop 11 = renderHMS h mi s := by
        simp [renderDT, renderYMD, renderHMS, four, two]
      rw [ht, hd, parseYMD_render y m d h1 h2 h3 h4 h5, parseHMS_render h mi s h6 h7 h8]
      rfl
    · exact ⟨hlen, rfl⟩
  | true =>
    have hlen : (renderDT (DateTime.mk y m d h mi s true)).length = 25 := by
      simp [renderDT, renderYMD, renderHMS, four, two]
    rw [parseDT, if_neg (by rw [hlen]; omega), if_neg (by rw [hlen]; omega), if_pos]
    · have ht : (renderDT (DateTime.mk y m d h mi s true)).take 10 = renderYMD y m d := by
        simp [renderDT, renderYMD, renderHMS, four, two]
      have hd : ((renderDT (DateTime.mk y m d h mi s true)).drop 11).take 8 = renderHMS h mi s := by
        simp [renderDT, renderYMD, renderHMS, four, two]
      rw [ht, hd, parseYMD_render y m d h1 h2 h3 h4 h5, parseHMS_render h mi s h6 h7 h8]
      rfl
    · exact ⟨hlen, rfl, rfl⟩

theorem dAt_le_nine {cs : List Char} {i : Nat} (h : digitAt cs i = true) : dAt cs i ≤ 9 := by
  simp only [digitAt, isDigitChar, Bool.and_eq_true, decide_eq_true_eq] at h
  simp only [dAt, charDigit]
  omega

theorem parseYMD_wf {cs : List Char} {y m d : Nat} (h : parseYMD cs = some (y, m, d)) :
    y ≤ 9999 ∧ 1 ≤ m ∧ m ≤ 12 ∧ 1 ≤ d ∧ d ≤ 31 := by
  rw [parseYMD] at h
  split_ifs at h with h1 h2
  obtain ⟨-, -, -, d0, d1, d2, d3, d5, d6, d8, d9⟩ := h1
  have e0 := dAt_le_nine d0
  have e1 := dAt_le_nine d1
  have e2 := dAt_le_nine d2
  have e3 := dAt_le_nine d3
  simp only [Option.some.injEq, Prod.mk.injEq] at h
  obtain ⟨rfl, rfl, rfl⟩ := h
  exact ⟨by omega, h2.1, h2.2.1, h2.2.2.1, h2.2.2.2⟩

theorem parseHMS_wf {cs : List Char} {h mi s : Nat} (hp : parseHMS cs = some (h, mi, s)) :
    h ≤ 23 ∧ mi ≤ 59 ∧ s ≤ 59 := by
  rw [parseHMS] at hp
  split_ifs at hp with h1 h2
  simp only [Option.some.injEq, Prod.mk.injEq] at hp
  obtain ⟨rfl, rfl, rfl⟩ := hp
  exact h2

theorem parseDT_wf {cs : List Char} {t : DateTime} (h : parseDT cs = some t) : t.wf := by
  rw [parseDT] at h
  split_ifs at h with h1 h2 h3
  · rcases hy : parseYMD cs with - | ymd <;> rw [hy] at h
    · simp at h
    · obtain ⟨y, m, d⟩ := ymd
      simp only [Option.map_some', Option.some.injEq] at h
      obtain ⟨w1, w2, w3, w4, w5⟩ := parseYMD_wf hy
      rw [← h]
      exact ⟨w1, w2, w3, w4, w5, Nat.zero_le 23, Nat.zero_le 59, Nat.zero_le 59⟩
  · rcases hy : parseYMD (cs.take 10) with - | ymd <;> rw [hy] at h
    · simp at h
    · obtain ⟨y, m, d⟩ := ymd
      rcases hh : parseHMS (cs.drop 11) with - | hms <;> rw [hh] at h
      · simp at h
      · obtain ⟨hh', mm, ss⟩ := hms
        simp at h
        obtain ⟨w1, w2, w3, w4, w5⟩ := parseYMD_wf hy
        obtain ⟨v1, v2, v3⟩ := parseHMS_wf hh
        rw [← h]
        exact ⟨w1, w2, w3, w4, w5, v1, v2, v3⟩
  · rcases hy : parseYMD (cs.take 10) with - | ymd <;> rw [hy] at h
    · simp at h
    · obtain ⟨y, m, d⟩ := ymd
      rcases hh : parseHMS ((cs.drop 11).take 8) with - | hms <;> rw [hh] at h
      · simp at h
      · obtain ⟨hh', mm, ss⟩ := hms
        simp at h
        obtain ⟨w1, w2, w3, w4, w5⟩ := parseYMD_wf hy
        obtain ⟨v1, v2, v3⟩ := parseHMS_wf hh
        rw [← h]
        exact ⟨w1, w2, w3, w4, w5, v1, v2, v3⟩

theorem parseDT_none_of_getD_four {cs : List Char} (h : cs.getD 4 'x' ≠ '-') :
    parseDT cs = none := by
  have hymd : ∀ l : List Char, l.getD 4 'x' ≠ '-' → parseYMD l = none := by
    intro l hl
    rw [parseYMD, if_neg]
    intro hc
    exact hl hc.2.1
  have htake : (cs.take 10).getD 4 'x' = cs.getD 4 'x' := by
    rcases cs with - | ⟨a, - | ⟨b, - | ⟨c, - | ⟨d, - | ⟨e, l⟩⟩⟩⟩⟩ <;> rfl
  rw [parseDT]
  split_ifs with h1 h2 h3
  · have h10 : cs.take 10 = cs := List.take_of_length_le (by omega)
    rw [← h10] at h
    rw [htake] at h
    rw [← htake] at h
    rw [h10] at h
    rw [hymd cs h]
    rfl
  · rw [hymd _ (by rw [htake]; exact h)]
    rfl
  · rw [hymd _ (by rw [htake]; exact h)]
    rfl
  · rfl

theorem parseUnsigned_den {cs : List Char} {q : ℚ} (h : parseUnsigned cs = some q) :
    ∃ j, q.den ∣ 10 ^ j := by
  rw [parseUnsigned] at h
  rcases hd : cs.dropWhile (fun c => decide (c ≠ '.')) with - | ⟨c, fp⟩ <;>
    simp only [hd] at h
  · split_ifs at h
    simp only [Option.some.injEq] at h
    refine ⟨0, ?_⟩
    rw [← h]
    simp [Rat.den_natCast]
  · split_ifs at h
    simp only [Option.some.injEq] at h
    refine ⟨fp.length, ?_⟩
    rw [← h]
    have hdvd := Rat.den_dvd (charsToNat
      ((cs.takeWhile fun c => decide (c ≠ '.')) ++ fp) : ℤ) ((10 : ℤ) ^ fp.length)
    rw [show ((10 : ℤ) ^ fp.length) = ((10 ^ fp.length : ℕ) : ℤ) by push_cast; ring] at hdvd
    exact_mod_cast hdvd

theorem parseDecimal_den {cs : List Char} {q : ℚ} (h : parseDecimal cs = some q) :
    ∃ j, q.den ∣ 10 ^ j := by
  rw [parseDecimal] at h
  split_ifs at h
  · rcases hu : parseUnsigned cs.tail with - | q' <;> rw [hu] at h
    · simp at h
    · simp only [Option.map_some', Option.some.injEq] at h
      obtain ⟨j, hj⟩ := parseUnsigned_den hu
      refine ⟨j, ?_⟩
      rw [← h, Rat.neg_den]
      exact hj
  · exact parseUnsigned_den h

theorem renderIntK_dot (M : ℤ) (k : Nat) : '.' ∈ renderIntK M k := by
  rw [renderIntK]
  exact List.mem_append.mpr (Or.inr (List.mem_cons_self _ _))

theorem renderIntK_not_token (M : ℤ) (k : Nat) :
    ¬((String.mk (renderIntK M k)).data = [] ∨ String.mk (renderIntK M k) = "NaN" ∨
      String.mk (renderIntK M k) = "nan") := by
  have hdot : '.' ∈ renderIntK M k := renderIntK_dot M k
  intro hc
  rcases hc with h | h | h
  · rw [show (String.mk (renderIntK M k)).data = renderIntK M k from rfl] at h
    rw [h] at hdot
    simp at hdot
  · have hd : renderIntK M k = "NaN".data := congrArg String.data h
    rw [hd] at hdot
    exact absurd hdot (by decide)
  · have hd : renderIntK M k = "nan".data := congrArg String.data h
    rw [hd] at hdot
    exact absurd hdot (by decide)

theorem digit_or_dot_getD {l : List Char} (hl : ∀ c ∈ l, isDigitChar c = true ∨ c = '.')
    (i : Nat) : l.getD i 'x' ≠ '-' := by
  by_cases hlt : i < l.length
  · rw [List.getD_eq_getElem l 'x' hlt]
    have hmem : l[i] ∈ l := List.getElem_mem hlt
    rcases hl _ hmem with h | h
    · exact isDigitChar_ne_dash h
    · rw [h]
      decide
  · rw [List.getD_eq_default l 'x' (by omega)]
    decide

theorem renderIntK_body (M : ℤ) (k : Nat) :
    ∀ c ∈ (absDigitChars M k).take ((absDigitChars M k).length - k) ++
      '.' :: (absDigitChars M k).drop ((absDigitChars M k).length - k),
      isDigitChar c = true ∨ c = '.' := by
  intro c hc
  have hds : ∀ c ∈ absDigitChars M k, isDigitChar c = true := by
    intro c hc
    rw [absDigitChars] at hc
    obtain ⟨d, hd, rfl⟩ := List.mem_map.mp hc
    exact isDigitChar_digitChar d (padLeft_lt _ _ (natToDigits_lt _) d hd)
  rcases List.mem_append.mp hc with h | h
  · exact Or.inl (hds c (List.take_subset _ _ h))
  · rcases List.mem_cons.mp h with h | h
    · exact Or.inr h
    · exact Or.inl (hds c (List.drop_subset _ _ h))

theorem renderIntK_getD_four (M : ℤ) (k : Nat) : (renderIntK M k).getD 4 'x' ≠ '-' := by
  rw [renderIntK]
  by_cases hneg : M < 0
  · rw [if_pos hneg]
    have hstep : (['-'] ++
        (absDigitChars M k).take ((absDigitChars M k).length - k) ++
        '.' :: (absDigitChars M k).drop ((absDigitChars M k).length - k)).getD 4 'x' =
        ((absDigitChars M k).take ((absDigitChars M k).length - k) ++
        '.' :: (absDigitChars M k).drop ((absDigitChars M k).length - k)).getD 3 'x' := rfl
    rw [hstep]
    exact digit_or_dot_getD (renderIntK_body M k) 3
  · rw [if_neg hneg, List.nil_append]
    exact digit_or_dot_getD (renderIntK_body M k) 4

theorem parseDT_renderIntK (M : ℤ) (k : Nat) : parseDT (renderIntK M k) = none :=
  parseDT_none_of_getD_four (renderIntK_getD_four M k)

theorem renderRat_not_token (q : ℚ) :
    ¬((String.mk (renderRatChars q)).data = [] ∨ String.mk (renderRatChars q) = "NaN" ∨
      String.mk (renderRatChars q) = "nan") :=
  renderIntK_not_token _ _

theorem parseDT_renderRat (q : ℚ) : parseDT (renderRatChars q) = none :=
  parseDT_renderIntK _ _

theorem parseCell_renderCell (s : String) : parseCell (renderCell (parseCell s)) = parseCell s := by
  by_cases h1 : s.data = [] ∨ s = "NaN" ∨ s = "nan"
  · have hna : parseCell s = Value.na := by
      rw [parseCell, if_pos h1]
    rw [hna]
    rw [show renderCell Value.na = "" from rfl]
    rw [parseCell, if_pos (Or.inl rfl)]
  · rcases hq : parseDecimal s.data with - | q
    · have hps : parseCell s = Value.str s := by
        rw [parseCell, if_neg h1, hq]
        rfl
      rw [hps]
      exact hps
    · have hps : parseCell s = Value.num q := by
        rw [parseCell, if_neg h1, hq]
        rfl
      rw [hps]
      show parseCell (String.mk (renderRatChars q)) = Value.num q
      rw [parseCell, if_neg (renderRat_not_token q)]
      obtain ⟨j, hj⟩ := parseDecimal_den hq
      rw [show (String.mk (renderRatChars q)).data = renderRatChars q from rfl,
        parseDecimal_renderRatChars q j hj]
      rfl

theorem parseDateCell_render_na : parseDateCell (renderCell Value.na) = some Value.na := by
  rw [renderCell, parseDateCell, if_pos (Or.inl rfl)]

theorem parseDateCell_render_vdt (t : DateTime) (hwf : t.wf) :
    parseDateCell (renderCell (Value.vdt t)) = some (Value.vdt t) := by
  have hlen : 19 ≤ (renderDT t).length := by
    obtain ⟨y, m, d, h, mi, s, tz⟩ := t
    cases tz <;> simp [renderDT, renderYMD, renderHMS, four, two]
  rw [renderCell, parseDateCell, if_neg, show (String.mk (renderDT t)).data = renderDT t from rfl,
    parseDT_renderDT t hwf, Option.map_some']
  intro hc
  rcases hc with h | h | h
  · rw [show (String.mk (renderDT t)).data = renderDT t from rfl] at h
    rw [h] at hlen
    simp at hlen
  · have hd : renderDT t = "NaN".data := congrArg String.data h
    rw [hd] at hlen
    simp at hlen
  · have hd : renderDT t = "nan".data := congrArg String.data h
    rw [hd] at hlen
    simp at hlen

theorem parseDateCell_render_of_none {s : String} (h : parseDateCell s = none) :
    parseDateCell (renderCell (parseCell s)) = none := by
  rw [parseDateCell] at h
  split_ifs at h with h1
  case _ =>
    have hdt : parseDT s.data = none := Option.map_eq_none'.mp h
    rcases hq : parseDecimal s.data with - | q
    · have hps : parseCell s = Value.str s := by
        rw [parseCell, if_neg h1, hq]
        rfl
      rw [hps]
      show parseDateCell s = none
      rw [parseDateCell, if_neg h1, hdt]
      rfl
    · have hps : parseCell s = Value.num q := by
        rw [parseCell, if_neg h1, hq]
        rfl
      rw [hps]
      show parseDateCell (String.mk (renderRatChars q)) = none
      rw [parseDateCell, if_neg (renderRat_not_token q),
        show (String.mk (renderRatChars q)).data = renderRatChars q from rfl,
        parseDT_renderRat]
      rfl

theorem parseDateCell_render {s : String} {v : Value} (h : parseDateCell s = some v) :
    parseDateCell (renderCell v) = some v := by
  rw [parseDateCell] at h
  split_ifs at h with h1
  · simp only [Option.some.injEq] at h
    rw [← h]
    exact parseDateCell_render_na
  · rcases hdt : parseDT s.data with - | t <;> rw [hdt] at h
    · simp at h
    · simp only [Option.map_some', Option.some.injEq] at h
      rw [← h]
      exact parseDateCell_render_vdt t (parseDT_wf hdt)

theorem range_map_getD {α : Type} (l : List α) (d : α) :
    (List.range l.length).map (fun j => l.getD j d) = l := by
  induction l with
  | nil => rfl
  | cons a t ih =>
    rw [List.length_cons, List.range_succ_eq_map, List.map_cons, List.map_map]
    rw [show ((fun j => (a :: t).getD j d) ∘ Nat.succ) = (fun j => t.getD j d) from rfl, ih]
    rfl

theorem range_map_getD_f {α β : Type} (l : List α) (d : α) (f : α → β) :
    (List.range l.length).map (fun j => f (l.getD j d)) = l.map f := by
  have h1 : (fun j => f (l.getD j d)) = f ∘ (fun j => l.getD j d) := rfl
  rw [h1, ← List.map_map, range_map_getD]

theorem colParse_length (dateCol nm : String) (raw : List String) :
    (colParse dateCol nm raw).length = raw.length := by
  rw [colParse]
  split_ifs <;> rw [List.length_map]

theorem colParse_round (dateCol nm : String) (raw : List String) :
    colParse dateCol nm ((colParse dateCol nm raw).map renderCell) = colParse dateCol nm raw := by
  by_cases hc : nm = dateCol ∧ raw.all (fun s => (parseDateCell s).isSome) = true
  · obtain ⟨hnm, hacc⟩ := hc
    rw [List.all_eq_true] at hacc
    have hP : colParse dateCol nm raw =
        raw.map (fun s => (parseDateCell s).getD Value.na) := by
      rw [colParse, if_pos ⟨hnm, List.all_eq_true.mpr hacc⟩]
    rw [hP, List.map_map]
    have hPacc : ∀ x ∈ raw.map (fun s => renderCell ((parseDateCell s).getD Value.na)),
        (parseDateCell x).isSome = true := by
      intro x hx
      obtain ⟨s, hs, rfl⟩ := List.mem_map.mp hx
      obtain ⟨v, hv⟩ := Option.isSome_iff_exists.mp (hacc s hs)
      rw [hv, Option.getD_some, parseDateCell_render hv]
      rfl
    rw [colParse, if_pos ⟨hnm, List.all_eq_true.mpr hPacc⟩, List.map_map]
    apply List.map_congr_left
    intro s hs
    obtain ⟨v, hv⟩ := Option.isSome_iff_exists.mp (hacc s hs)
    show (parseDateCell (renderCell ((parseDateCell s).getD Value.na))).getD Value.na =
      (parseDateCell s).getD Value.na
    rw [hv, Option.getD_some, parseDateCell_render hv, Option.getD_some]
  · have hP : colParse dateCol nm raw = raw.map parseCell := by
      rw [colParse, if_neg hc]
    rw [hP, List.map_map]
    rw [colParse, if_neg, List.map_map]
    · apply List.map_congr_left
      intro s _
      exact parseCell_renderCell s
    · intro hc'
      obtain ⟨hnm, hacc'⟩ := hc'
      apply hc
      refine ⟨hnm, ?_⟩
      by_contra hacc
      rw [List.all_eq_true] at hacc
      push_neg at hacc
      obtain ⟨s, hs, hns⟩ := hacc
      have hnone : parseDateCell s = none := by
        rcases hpd : parseDateCell s with - | v
        · rfl
        · rw [hpd] at hns
          simp at hns
      rw [List.all_eq_true] at hacc'
      have hmem := hacc' (renderCell (parseCell s)) (List.mem_map.mpr ⟨s, hs, rfl⟩)
      rw [parseDateCell_render_of_none hnone] at hmem
      simp at hmem

theorem getD_map_lt {α β : Type} (l : List α) (f : α → β) (j : Nat) (hj : j < l.length) (d : β) :
    (l.map f).getD j d = f l[j] := by
  rw [List.getD_eq_getElem _ _ (by rw [List.length_map]; exact hj), List.getElem_map]

theorem readCsv_writeCsv_gen (dateCol : String) (H : List String) (C : Nat → List Value)
    (n : Nat) (hmem : dateCol ∈ H)
    (hlen : ∀ j, j < H.length → (C j).length = n)
    (hround : ∀ j, j < H.length →
      colParse dateCol (H.getD j "") ((C j).map renderCell) = C j) :
    readCsv dateCol (writeCsv (DataFrame.mk
      ((List.range H.length).map (fun j => (H.getD j "", C j))) (List.range n))) =
      some (DataFrame.mk
        ((List.range H.length).map (fun j => (H.getD j "", C j))) (List.range n)) := by
  have hnames : (DataFrame.mk
      ((List.range H.length).map (fun j => (H.getD j "", C j))) (List.range n)).names = H := by
    show ((List.range H.length).map (fun j => (H.getD j "", C j))).map Prod.fst = H
    rw [List.map_map,
      show (Prod.fst ∘ fun j => (H.getD j "", C j)) = fun j => H.getD j "" from rfl,
      range_map_getD]
  rw [writeCsv, hnames]
  rw [show (DataFrame.mk
      ((List.range H.length).map (fun j => (H.getD j "", C j))) (List.range n)).nRows = n by
    show (List.range n).length = n
    exact List.length_range n]
  rw [readCsv, if_pos]
  · congr 1
    refine congrArg₂ DataFrame.mk ?_ ?_
    · apply List.map_congr_left
      intro j hj
      have hjH : j < H.length := List.mem_range.mp hj
      congr 1
      have hrow : ((List.range n).map (fun i => (DataFrame.mk
          ((List.range H.length).map (fun j => (H.getD j "", C j))) (List.range n)).cols.map
            (fun c => renderCell (c.2.getD i Value.na)))).map (fun r => r.getD j "") =
          (C j).map renderCell := by
        rw [List.map_map]
        have hfun : ((fun r : List String => r.getD j "") ∘ (fun i => (DataFrame.mk
            ((List.range H.length).map (fun j => (H.getD j "", C j))) (List.range n)).cols.map
              (fun c => renderCell (c.2.getD i Value.na)))) =
            fun i => renderCell ((C j).getD i Value.na) := by
          funext i
          show (((List.range H.length).map (fun j => (H.getD j "", C j))).map
            (fun c => renderCell (c.2.getD i Value.na))).getD j "" = _
          rw [getD_map_lt _ _ j (by rw [List.length_map, List.length_range]; exact hjH)]
          rw [List.getElem_map, List.getElem_range]
        rw [hfun, ← hlen j hjH, range_map_getD_f]
      rw [hrow, hround j hjH]
    · rw [List.length_map, List.length_range]
  · refine ⟨?_, hmem⟩
    rw [List.all_eq_true]
    intro r hr
    obtain ⟨i, -, rfl⟩ := List.mem_map.mp hr
    simp [List.length_map, List.length_range]

theorem readCsv_writeCsv {dateCol : String} {g : Grid} {df : DataFrame}
    (h : readCsv dateCol g = some df) : readCsv dateCol (writeCsv df) = some df := by
  rcases g with - | ⟨header, body⟩
  · rw [readCsv] at h
    simp at h
  · rw [readCsv] at h
    split_ifs at h with hcond
    obtain ⟨hrect, hmem⟩ := hcond
    simp only [Option.some.injEq] at h
    subst h
    exact readCsv_writeCsv_gen dateCol header
      (fun j => colParse dateCol (header.getD j "") (body.map (fun r => r.getD j "")))
      body.length hmem
      (fun j _ => by rw [colParse_length, List.length_map])
      (fun j _ => colParse_round dateCol (header.getD j "") (body.map (fun r => r.getD j "")))

theorem mapM_eq_some_map {α β : Type} (f : α → Option β) (g : α → β) (l : List α)
    (h : ∀ v ∈ l, f v = some (g v)) : l.mapM f = some (l.map g) := by
  induction l with
  | nil => rfl
  | cons a t ih =>
    rw [List.mapM_cons, h a (List.mem_cons_self a t),
      ih (fun v hv => h v (List.mem_cons_of_mem a hv))]
    rfl

theorem lookupCol_setColAux_self (cols : List (String × List Value)) (nm : String)
    (vs : List Value) : lookupCol (setColAux cols nm vs) nm = some vs := by
  induction cols with
  | nil => simp [setColAux, lookupCol]
  | cons c cs ih =>
    rw [setColAux]
    split_ifs with hc
    · rw [lookupCol, if_pos rfl]
    · rw [lookupCol, if_neg hc, ih]

theorem lookupCol_setColAux_other (cols : List (String × List Value)) (nm nm' : String)
    (vs : List Value) (h : nm' ≠ nm) :
    lookupCol (setColAux cols nm vs) nm' = lookupCol cols nm' := by
  induction cols with
  | nil =>
    rw [setColAux]
    show (if nm = nm' then some vs else lookupCol [] nm') = lookupCol [] nm'
    rw [if_neg (fun hx : nm = nm' => h hx.symm)]
  | cons c cs ih =>
    rw [setColAux]
    split_ifs with hc
    · show (if nm = nm' then some vs else lookupCol cs nm') =
        (if c.1 = nm' then some c.2 else lookupCol cs nm')
      rw [if_neg (fun hx : nm = nm' => h hx.symm),
        if_neg (by rw [hc]; exact fun hx : nm = nm' => h hx.symm)]
    · show (if c.1 = nm' then some c.2 else lookupCol (setColAux cs nm vs) nm') =
        (if c.1 = nm' then some c.2 else lookupCol cs nm')
      split_ifs with hc2
      · rfl
      · exact ih

theorem getCol_setCol_self (df : DataFrame) (nm : String) (vs : List Value) :
    (df.setCol nm vs).getCol nm = some vs :=
  lookupCol_setColAux_self df.cols nm vs

theorem getCol_setCol_other (df : DataFrame) (nm nm' : String) (vs : List Value)
    (h : nm' ≠ nm) : (df.setCol nm vs).getCol nm' = df.getCol nm' :=
  lookupCol_setColAux_other df.cols nm nm' vs h

theorem getD_tail (r : List Value) (k : Nat) :
    r.tail.getD k Value.na = r.getD (k + 1) Value.na := by
  cases r <;> rfl

theorem colsFromRows_names (names : List String) (rows : List (List Value)) :
    (colsFromRows names rows).map Prod.fst = names := by
  induction names generalizing rows with
  | nil => rfl
  | cons a t ih => rw [colsFromRows, List.map_cons, ih]

theorem colsFromRows_lengths (names : List String) (rows : List (List Value)) :
    ∀ c ∈ colsFromRows names rows, c.2.length = rows.length := by
  induction names generalizing rows with
  | nil =>
    intro c hc
    simp [colsFromRows] at hc
  | cons a t ih =>
    intro c hc
    rw [colsFromRows] at hc
    rcases List.mem_cons.mp hc with h | h
    · rw [h]
      exact List.length_map rows _
    · rw [ih (rows.map List.tail) c h, List.length_map]

theorem lookupCol_colsFromRows (names : List String) (rows : List (List Value)) (nm : String)
    (h : nm ∈ names) :
    lookupCol (colsFromRows names rows) nm =
      some (rows.map (fun r => r.getD (colIdx names nm) Value.na)) := by
  induction names generalizing rows with
  | nil => cases h
  | cons a t ih =>
    rw [colsFromRows]
    show (if a = nm then some (rows.map (fun r => r.getD 0 Value.na))
      else lookupCol (colsFromRows t (rows.map List.tail)) nm) = _
    split_ifs with ha
    · rw [colIdx, if_pos ha]
    · have h' : nm ∈ t := by
        rcases List.mem_cons.mp h with hx | hx
        · exact absurd hx.symm ha
        · exact hx
      rw [ih (rows.map List.tail) h', colIdx, if_neg ha, List.map_map]
      congr 1
      apply List.map_congr_left
      intro r _
      show (List.tail r).getD (colIdx t nm) Value.na = r.getD (colIdx t nm + 1) Value.na
      exact getD_tail r _

theorem lookupCol_mem {cols : List (String × List Value)} {nm : String} {vs : List Value}
    (h : lookupCol cols nm = some vs) : (nm, vs) ∈ cols := by
  induction cols with
  | nil => simp [lookupCol] at h
  | cons c cs ih =>
    rw [lookupCol] at h
    split_ifs at h with hc
    · simp only [Option.some.injEq] at h
      refine List.mem_cons.mpr (Or.inl ?_)
      rw [← hc, ← h]
    · exact List.mem_cons_of_mem _ (ih h)

theorem lookupCol_mem_names {cols : List (String × List Value)} {nm : String} {vs : List Value}
    (h : lookupCol cols nm = some vs) : nm ∈ cols.map Prod.fst :=
  List.mem_map.mpr ⟨(nm, vs), lookupCol_mem h, rfl⟩

theorem lookupCol_getD (cols : List (String × List Value)) (nm : String)
    (h : nm ∈ cols.map Prod.fst) :
    colIdx (cols.map Prod.fst) nm < cols.length ∧
      (cols.getD (colIdx (cols.map Prod.fst) nm) ("", [])).1 = nm ∧
      lookupCol cols nm = some (cols.getD (colIdx (cols.map Prod.fst) nm) ("", [])).2 := by
  induction cols with
  | nil => simp at h
  | cons c cs ih =>
    by_cases hc : c.1 = nm
    · have hidx : colIdx ((c :: cs).map Prod.fst) nm = 0 := by
        rw [List.map_cons, colIdx, if_pos hc]
      rw [hidx]
      refine ⟨Nat.succ_pos _, hc, ?_⟩
      rw [lookupCol, if_pos hc]
      rfl
    · have hidx : colIdx ((c :: cs).map Prod.fst) nm = colIdx (cs.map Prod.fst) nm + 1 := by
        rw [List.map_cons, colIdx, if_neg hc]
      have h' : nm ∈ cs.map Prod.fst := by
        rw [List.map_cons] at h
        rcases List.mem_cons.mp h with hx | hx
        · exact absurd hx.symm hc
        · exact hx
      obtain ⟨ih1, ih2, ih3⟩ := ih h'
      rw [hidx]
      refine ⟨by rw [List.length_cons]; omega, ?_, ?_⟩
      · show (cs.getD (colIdx (cs.map Prod.fst) nm) ("", [])).1 = nm
        exact ih2
      · rw [lookupCol, if_neg hc, ih3]
        rfl

theorem rowsWithKey_shape (df : DataFrame) (keyvs : List Value) :
    ∀ r ∈ df.rowsWithKey keyvs, ∃ i, i < df.index.length ∧
      r = (keyvs.getD i Value.na, df.index.getD i 0,
        df.cols.map (fun c => c.2.getD i Value.na)) := by
  intro r hr
  rw [DataFrame.rowsWithKey] at hr
  obtain ⟨i, hi, rfl⟩ := List.mem_map.mp hr
  exact ⟨i, List.mem_range.mp hi, rfl⟩

theorem sortValuesDate_spec (df : DataFrame) (keyvs : List Value)
    (h : df.getCol "date" = some keyvs) (hwf : df.wf) :
    ∃ df', df.sortValuesDate = some df' ∧
      df'.names = df.names ∧
      df'.index.length = df.index.length ∧
      df'.wf ∧
      (∃ vs, df'.getCol "date" = some vs ∧ vs.Sorted Value.le) ∧
      (∀ nm vs0, df.getCol nm = some vs0 →
        ∃ vs, df'.getCol nm = some vs ∧ vs.length = df.index.length ∧ ∀ v ∈ vs, v ∈ vs0) := by
  rw [DataFrame.sortValuesDate, h, Option.map_some']
  refine ⟨_, rfl, ?_, ?_, ?_, ?_, ?_⟩
  · exact colsFromRows_names _ _
  · show ((List.insertionSort rowLE (df.rowsWithKey keyvs)).map (fun r => r.2.1)).length =
      df.index.length
    rw [List.length_map, List.length_insertionSort, DataFrame.rowsWithKey, List.length_map,
      List.length_range]
  · intro c hc
    show c.2.length = ((List.insertionSort rowLE (df.rowsWithKey keyvs)).map
      (fun r => r.2.1)).length
    rw [colsFromRows_lengths _ _ c hc, List.length_map, List.length_map]
  · -- the sorted date column
    have hmem : "date" ∈ df.names := lookupCol_mem_names h
    refine ⟨_, lookupCol_colsFromRows df.names _ "date" hmem, ?_⟩
    rw [List.map_map]
    have hpt : ∀ r ∈ List.insertionSort rowLE (df.rowsWithKey keyvs),
        ((fun r : List Value => r.getD (colIdx df.names "date") Value.na) ∘
          (fun r : RowRec => r.2.2)) r = r.1 := by
      intro r hr
      have hrR : r ∈ df.rowsWithKey keyvs :=
        (List.perm_insertionSort rowLE _).mem_iff.mp hr
      obtain ⟨i, hi, rfl⟩ := rowsWithKey_shape df keyvs r hrR
      obtain ⟨hlt, -, hlook⟩ := lookupCol_getD df.cols "date" hmem
      show (df.cols.map (fun c => c.2.getD i Value.na)).getD (colIdx df.names "date")
        Value.na = keyvs.getD i Value.na
      rw [show colIdx df.names = colIdx (df.cols.map Prod.fst) from rfl, getD_map_lt _ _ _ hlt]
      have hkey : (df.cols.getD (colIdx (df.cols.map Prod.fst) "date") ("", [])).2 = keyvs := by
        rw [DataFrame.getCol, hlook] at h
        exact Option.some.inj h
      rw [← List.getD_eq_getElem df.cols ("", []) hlt, hkey]
    rw [List.map_congr_left hpt]
    have hsorted : (List.insertionSort rowLE (df.rowsWithKey keyvs)).Sorted rowLE :=
      List.sorted_insertionSort rowLE _
    exact List.Pairwise.map _ (fun a b hab => hab) hsorted
  · intro nm vs0 h0
    have hmem : nm ∈ df.names := lookupCol_mem_names h0
    refine ⟨_, lookupCol_colsFromRows df.names _ nm hmem, ?_, ?_⟩
    · rw [List.length_map, List.length_map, List.length_insertionSort,
        DataFrame.rowsWithKey, List.length_map, List.length_range]
    · intro v hv
      rw [List.map_map] at hv
      obtain ⟨r, hr, rfl⟩ := List.mem_map.mp hv
      have hrR : r ∈ df.rowsWithKey keyvs :=
        (List.perm_insertionSort rowLE _).mem_iff.mp hr
      obtain ⟨i, hi, rfl⟩ := rowsWithKey_shape df keyvs r hrR
      obtain ⟨hlt, -, hlook⟩ := lookupCol_getD df.cols nm hmem
      show (df.cols.map (fun c => c.2.getD i Value.na)).getD (colIdx df.names nm)
        Value.na ∈ vs0
      rw [show colIdx df.names = colIdx (df.cols.map Prod.fst) from rfl, getD_map_lt _ _ _ hlt]
      have hveq : (df.cols.getD (colIdx (df.cols.map Prod.fst) nm) ("", [])).2 = vs0 := by
        rw [DataFrame.getCol, hlook] at h0
        exact Option.some.inj h0
      rw [← List.getD_eq_getElem df.cols ("", []) hlt, hveq]
      have hlen0 : vs0.length = df.index.length := hwf _ (lookupCol_mem h0)
      rw [List.getD_eq_getElem _ _ (by omega)]
      exact List.getElem_mem _

theorem mem_names_setColAux (cols : List (String × List Value)) (nm : String) (vs : List Value)
    (x : String) :
    x ∈ (setColAux cols nm vs).map Prod.fst ↔ x ∈ cols.map Prod.fst ∨ x = nm := by
  induction cols with
  | nil => simp [setColAux]
  | cons c cs ih =>
    rw [setColAux]
    split_ifs with hc
    · rw [← hc]
      simp only [List.map_cons, List.mem_cons]
      tauto
    · simp only [List.map_cons, List.mem_cons, ih]
      tauto

theorem mem_names_setCol (df : DataFrame) (nm : String) (vs : List Value) (x : String) :
    x ∈ (df.setCol nm vs).names ↔ x ∈ df.names ∨ x = nm :=
  mem_names_setColAux df.cols nm vs x

theorem index_setCol (df : DataFrame) (nm : String) (vs : List Value) :
    (df.setCol nm vs).index = df.index := rfl

theorem setColAux_wf (cols : List (String × List Value)) (nm : String) (vs : List Value)
    (n : Nat) (hwf : ∀ c ∈ cols, c.2.length = n) (hvs : vs.length = n) :
    ∀ c ∈ setColAux cols nm vs, c.2.length = n := by
  induction cols with
  | nil =>
    intro c hc
    rw [setColAux] at hc
    rcases List.mem_cons.mp hc with h | h
    · rw [h]
      exact hvs
    · cases h
  | cons c0 cs ih =>
    intro c hc
    rw [setColAux] at hc
    split_ifs at hc with hc0
    · rcases List.mem_cons.mp hc with h | h
      · rw [h]
        exact hvs
      · exact hwf c (List.mem_cons_of_mem c0 h)
    · rcases List.mem_cons.mp hc with h | h
      · rw [h]
        exact hwf c0 (List.mem_cons_self c0 cs)
      · exact ih (fun c hc => hwf c (List.mem_cons_of_mem c0 hc)) c h

theorem setCol_wf (df : DataFrame) (nm : String) (vs : List Value)
    (hwf : df.wf) (hvs : vs.length = df.index.length) : (df.setCol nm vs).wf :=
  setColAux_wf df.cols nm vs df.index.length hwf hvs

theorem getCol_length {df : DataFrame} {nm : String} {vs : List Value}
    (h : df.getCol nm = some vs) (hwf : df.wf) : vs.length = df.index.length :=
  hwf _ (lookupCol_mem h)

theorem mapM_length {α β : Type} {f : α → Option β} :
    ∀ {l : List α} {l' : List β}, l.mapM f = some l' → l'.length = l.length := by
  intro l
  induction l with
  | nil =>
    intro l' h
    rw [List.mapM_nil] at h
    simp only [pure, Option.some.injEq] at h
    rw [← h]
    rfl
  | cons a t ih =>
    intro l' h
    rw [List.mapM_cons] at h
    rcases ha : f a with - | b <;> rw [ha] at h
    · simp at h
    · rcases ht : t.mapM f with - | t' <;> rw [ht] at h
      · simp at h
      · simp only [Option.bind_eq_bind, Option.some_bind, Option.some.injEq, pure] at h
        rw [← h, List.length_cons, List.length_cons, ih ht]

theorem mapM_getD {α β : Type} {f : α → Option β} :
    ∀ {l : List α} {l' : List β}, l.mapM f = some l' →
      ∀ i (da : α) (db : β), i < l.length → f (l.getD i da) = some (l'.getD i db) := by
  intro l
  induction l with
  | nil =>
    intro l' h i da db hi
    simp at hi
  | cons a t ih =>
    intro l' h i da db hi
    rw [List.mapM_cons] at h
    rcases ha : f a with - | b <;> rw [ha] at h
    · simp at h
    · rcases ht : t.mapM f with - | t' <;> rw [ht] at h
      · simp at h
      · simp only [Option.bind_eq_bind, Option.some_bind, Option.some.injEq, pure] at h
        rw [← h]
        cases i with
        | zero => exact ha
        | succ k =>
          rw [List.length_cons] at hi
          exact ih ht k da db (by omega)

theorem pctChange_length (xs : List Value) : (pctChange xs).length = xs.length := by
  rw [pctChange, List.length_map, List.length_range]

theorem zipDivM_length : ∀ {xs ys vs : List Value}, zipDivM xs ys = some vs →
    vs.length = xs.length := by
  intro xs
  induction xs with
  | nil =>
    intro ys vs h
    cases ys with
    | nil =>
      rw [zipDivM] at h
      simp only [Option.some.injEq] at h
      rw [← h]
    | cons b bs =>
      simp [zipDivM] at h
  | cons a as' ih =>
    intro ys vs h
    cases ys with
    | nil =>
      simp [zipDivM] at h
    | cons b bs =>
      rw [zipDivM] at h
      rcases hd : divVal a b with - | v <;> rw [hd] at h
      · simp at h
      · rcases hz : zipDivM as' bs with - | vs' <;> rw [hz] at h
        · simp at h
        · simp only [Option.some_bind, Option.map_some', Option.some.injEq] at h
          rw [← h, List.length_cons, List.length_cons, ih hz]

theorem stepStock_spec (lib : TALib) (pyn : PyNanceInd) (m : SMethod) (df df' : DataFrame)
    (h : stepStock lib pyn m df = some df') :
    df'.index = df.index ∧
      (∀ x, x ∈ df'.names ↔ x ∈ df.names ∨ x ∈ outputColsS m) ∧
      (∀ nm, nm ∉ outputColsS m → df'.getCol nm = df.getCol nm) := by
  cases m
  case addTechnicalIndicators =>
    rw [stepStock] at h
    rcases hc : df.getCol "close" with - | close <;> rw [hc] at h
    · simp at h
    · simp only [Option.map_some', Option.some.injEq] at h
      subst h
      refine ⟨rfl, ?_, ?_⟩
      · intro x
        simp only [mem_names_setCol, outputColsS, List.mem_cons, List.not_mem_nil, or_false]
        tauto
      · intro nm hno
        simp only [outputColsS, List.mem_cons, List.not_mem_nil, or_false] at hno
        push_neg at hno
        obtain ⟨n1, n2, n3, n4, n5, n6⟩ := hno
        rw [getCol_setCol_other _ _ _ _ n6, getCol_setCol_other _ _ _ _ n5,
          getCol_setCol_other _ _ _ _ n4, getCol_setCol_other _ _ _ _ n3,
          getCol_setCol_other _ _ _ _ n2, getCol_setCol_other _ _ _ _ n1]
  case computeDailyReturns =>
    rw [stepStock] at h
    rcases hc : df.getCol "close" with - | close <;> rw [hc] at h
    · simp at h
    · simp only [Option.map_some', Option.some.injEq] at h
      subst h
      refine ⟨rfl, ?_, ?_⟩
      · intro x
        simp only [mem_names_setCol, outputColsS, List.mem_cons, List.not_mem_nil, or_false]
      · intro nm hno
        simp only [outputColsS, List.mem_cons, List.not_mem_nil, or_false] at hno
        push_neg at hno
        rw [getCol_setCol_other _ _ _ _ hno]
  case adjustForSplits =>
    rw [stepStock] at h
    rcases hc : df.getCol "close" with - | close <;> rw [hc] at h
    · simp at h
    · rw [Option.some_bind] at h
      have hout : ∃ adj, df' = df.setCol "adjusted_close" adj := by
        split_ifs at h with hsp
        · rcases hs : df.getCol "stock splits" with - | splits <;> rw [hs] at h
          · simp at h
          · rw [Option.some_bind] at h
            rcases hz : zipDivM close (splits.map replaceZeroOne) with - | adj <;> rw [hz] at h
            · simp at h
            · simp only [Option.map_some', Option.some.injEq] at h
              exact ⟨adj, h.symm⟩
        · simp only [Option.some.injEq] at h
          exact ⟨close, h.symm⟩
      obtain ⟨adj, rfl⟩ := hout
      refine ⟨rfl, ?_, ?_⟩
      · intro x
        simp only [mem_names_setCol, outputColsS, List.mem_cons, List.not_mem_nil, or_false]
      · intro nm hno
        simp only [outputColsS, List.mem_cons, List.not_mem_nil, or_false] at hno
        rw [getCol_setCol_other _ _ _ _ hno]
  case calculatePynanceMetrics =>
    rw [stepStock] at h
    rcases hc : df.getCol "close" with - | close <;> rw [hc] at h
    · simp at h
    · simp only [Option.map_some', Option.some.injEq] at h
      subst h
      refine ⟨rfl, ?_, ?_⟩
      · intro x
        simp only [mem_names_setCol, outputColsS, List.mem_cons, List.not_mem_nil, or_false]
        tauto
      · intro nm hno
        simp only [outputColsS, List.mem_cons, List.not_mem_nil, or_false] at hno
        push_neg at hno
        rw [getCol_setCol_other _ _ _ _ hno.2, getCol_setCol_other _ _ _ _ hno.1]
  all_goals (
    simp only [stepStock, Option.some.injEq] at h
    subst h
    exact ⟨rfl, fun x => by simp [outputColsS], fun nm _ => rfl⟩)

theorem stepStock_wf (lib : TALib) (pyn : PyNanceInd) (m : SMethod) (df df' : DataFrame)
    (hlib : lib.wf) (hpyn : pyn.wf) (hwf : df.wf)
    (h : stepStock lib pyn m df = some df') : df'.wf := by
  obtain ⟨hS, hR, hM⟩ := hlib
  obtain ⟨hV, hMo⟩ := hpyn
  cases m
  case addTechnicalIndicators =>
    rw [stepStock] at h
    rcases hc : df.getCol "close" with - | close <;> rw [hc] at h
    · simp at h
    · simp only [Option.map_some', Option.some.injEq] at h
      subst h
      have hcl := getCol_length hc hwf
      refine setCol_wf _ _ _ (setCol_wf _ _ _ (setCol_wf _ _ _ (setCol_wf _ _ _
        (setCol_wf _ _ _ (setCol_wf _ _ _ hwf ?_) ?_) ?_) ?_) ?_) ?_
      · rw [hS 20 close, hcl]
      · rw [hS 50 close, hcl]
        rfl
      · rw [hR 14 close, hcl]
        rfl
      · rw [(hM close).1, hcl]
        rfl
      · rw [(hM close).2.1, hcl]
        rfl
      · rw [(hM close).2.2, hcl]
        rfl
  case computeDailyReturns =>
    rw [stepStock] at h
    rcases hc : df.getCol "close" with - | close <;> rw [hc] at h
    · simp at h
    · simp only [Option.map_some', Option.some.injEq] at h
      subst h
      exact setCol_wf _ _ _ hwf (by rw [pctChange_length, getCol_length hc hwf])
  case adjustForSplits =>
    rw [stepStock] at h
    rcases hc : df.getCol "close" with - | close <;> rw [hc] at h
    · simp at h
    · rw [Option.some_bind] at h
      split_ifs at h with hsp
      · rcases hs : df.getCol "stock splits" with - | splits <;> rw [hs] at h
        · simp at h
        · rw [Option.some_bind] at h
          rcases hz : zipDivM close (splits.map replaceZeroOne) with - | adj <;> rw [hz] at h
          · simp at h
          · simp only [Option.map_some', Option.some.injEq] at h
            subst h
            exact setCol_wf _ _ _ hwf (by rw [zipDivM_length hz, getCol_length hc hwf])
      · simp only [Option.some.injEq] at h
        subst h
        exact setCol_wf _ _ _ hwf (getCol_length hc hwf)
  case calculatePynanceMetrics =>
    rw [stepStock] at h
    rcases hc : df.getCol "close" with - | close <;> rw [hc] at h
    · simp at h
    · simp only [Option.map_some', Option.some.injEq] at h
      subst h
      have hcl := getCol_length hc hwf
      refine setCol_wf _ _ _ (setCol_wf _ _ _ hwf ?_) ?_
      · rw [hV close, hcl]
      · rw [hMo 10 close, hcl]
        rfl
  all_goals (
    simp only [stepStock, Option.some.injEq] at h
    subst h
    exact hwf)

theorem stepEda_spec (nlp : NLPLib) (m : EMethod) (df df' : DataFrame)
    (h : stepEda nlp m df = some df') :
    df'.index = df.index ∧
      (∀ x, x ∈ df'.names ↔ x ∈ df.names ∨ x ∈ outputColsE m) ∧
      (∀ nm, nm ∉ outputColsE m → df'.getCol nm = df.getCol nm) := by
  cases m
  case convertDates =>
    rw [stepEda] at h
    rcases hc : df.getCol "date" with - | d <;> rw [hc] at h
    · simp at h
    · simp only [Option.map_some', Option.some.injEq] at h
      subst h
      refine ⟨rfl, ?_, ?_⟩
      · intro x
        simp only [mem_names_setCol, outputColsE, List.mem_cons, List.not_mem_nil, or_false]
        tauto
      · intro nm hno
        simp only [outputColsE, List.mem_cons, List.not_mem_nil, or_false] at hno
        push_neg at hno
        rw [getCol_setCol_other _ _ _ _ hno.2, getCol_setCol_other _ _ _ _ hno.1]
  case headlineLengthStats =>
    rw [stepEda] at h
    rcases hc : df.getCol "headline" with - | hh <;> rw [hc] at h
    · simp at h
    · rw [Option.some_bind] at h
      rcases hm : hh.mapM lenVal with - | ls <;> rw [hm] at h
      · simp at h
      · simp only [Option.map_some', Option.some.injEq] at h
        subst h
        refine ⟨rfl, ?_, ?_⟩
        · intro x
          simp only [mem_names_setCol, outputColsE, List.mem_cons, List.not_mem_nil, or_false]
        · intro nm hno
          simp only [outputColsE, List.mem_cons, List.not_mem_nil, or_false] at hno
          rw [getCol_setCol_other _ _ _ _ hno]
  case analyzePublisherDomains =>
    rw [stepEda] at h
    rcases hc : df.getCol "publisher" with - | p <;> rw [hc] at h
    · simp at h
    · simp only [Option.map_some', Option.some.injEq] at h
      subst h
      refine ⟨rfl, ?_, ?_⟩
      · intro x
        simp only [mem_names_setCol, outputColsE, List.mem_cons, List.not_mem_nil, or_false]
      · intro nm hno
        simp only [outputColsE, List.mem_cons, List.not_mem_nil, or_false] at hno
        rw [getCol_setCol_other _ _ _ _ hno]
  case plotPublicationHour =>
    rw [stepEda] at h
    rcases hc : df.getCol "date" with - | d <;> rw [hc] at h
    · simp at h
    · rw [Option.some_bind] at h
      rcases hm : d.mapM hourOf with - | hs <;> rw [hm] at h
      · simp at h
      · simp only [Option.map_some', Option.some.injEq] at h
        subst h
        refine ⟨rfl, ?_, ?_⟩
        · intro x
          simp only [mem_names_setCol, outputColsE, List.mem_cons, List.not_mem_nil, or_false]
        · intro nm hno
          simp only [outputColsE, List.mem_cons, List.not_mem_nil, or_false] at hno
          rw [getCol_setCol_other _ _ _ _ hno]
  case preprocessText =>
    rw [stepEda] at h
    rcases hc : df.getCol "headline" with - | hh <;> rw [hc] at h
    · simp at h
    · simp only [Option.map_some', Option.some.injEq] at h
      subst h
      refine ⟨rfl, ?_, ?_⟩
      · intro x
        simp only [mem_names_setCol, outputColsE, List.mem_cons, List.not_mem_nil, or_false]
      · intro nm hno
        simp only [outputColsE, List.mem_cons, List.not_mem_nil, or_false] at hno
        rw [getCol_setCol_other _ _ _ _ hno]
  case performLda =>
    rw [stepEda] at h
    rcases hc : df.getCol "clean_headline" with - | hh <;> rw [hc] at h
    · simp at h
    · simp only [Option.map_some', Option.some.injEq] at h
      subst h
      refine ⟨rfl, ?_, ?_⟩
      · intro x
        simp only [mem_names_setCol, outputColsE, List.mem_cons, List.not_mem_nil, or_false]
      · intro nm hno
        simp only [outputColsE, List.mem_cons, List.not_mem_nil, or_false] at hno
        rw [getCol_setCol_other _ _ _ _ hno]
  case sentimentAnalysis =>
    rw [stepEda] at h
    rcases hc : df.getCol "headline" with - | hh <;> rw [hc] at h
    · simp at h
    · rw [Option.some_bind] at h
      rcases hm : hh.mapM (getSentimentVal nlp.polarity) with - | ss <;> rw [hm] at h
      · simp at h
      · simp only [Option.map_some', Option.some.injEq] at h
        subst h
        refine ⟨rfl, ?_, ?_⟩
        · intro x
          simp only [mem_names_setCol, outputColsE, List.mem_cons, List.not_mem_nil, or_false]
        · intro nm hno
          simp only [outputColsE, List.mem_cons, List.not_mem_nil, or_false] at hno
          rw [getCol_setCol_other _ _ _ _ hno]
  all_goals (
    rw [stepEda] at h
    first
    | (rcases hc : df.getCol "publisher" with - | p <;> rw [hc] at h
       · simp at h
       · simp only [Option.map_some', Option.some.injEq] at h
         subst h
         exact ⟨rfl, fun x => by simp [outputColsE], fun nm _ => rfl⟩)
    | (rcases hc : df.getCol "date_only" with - | p <;> rw [hc] at h
       · simp at h
       · simp only [Option.map_some', Option.some.injEq] at h
         subst h
         exact ⟨rfl, fun x => by simp [outputColsE], fun nm _ => rfl⟩))

theorem stepEda_wf (nlp : NLPLib) (m : EMethod) (df df' : DataFrame)
    (hlda : nlp.lda_wf) (hwf : df.wf) (h : stepEda nlp m df = some df') : df'.wf := by
  cases m
  case convertDates =>
    rw [stepEda] at h
    rcases hc : df.getCol "date" with - | d <;> rw [hc] at h
    · simp at h
    · simp only [Option.map_some', Option.some.injEq] at h
      subst h
      have hl := getCol_length hc hwf
      refine setCol_wf _ _ _ (setCol_wf _ _ _ hwf ?_) ?_
      · rw [List.length_map, hl]
      · rw [List.length_map, List.length_map, hl]
        rfl
  case headlineLengthStats =>
    rw [stepEda] at h
    rcases hc : df.getCol "headline" with - | hh <;> rw [hc] at h
    · simp at h
    · rw [Option.some_bind] at h
      rcases hm : hh.mapM lenVal with - | ls <;> rw [hm] at h
      · simp at h
      · simp only [Option.map_some', Option.some.injEq] at h
        subst h
        exact setCol_wf _ _ _ hwf (by rw [mapM_length hm, getCol_length hc hwf])
  case analyzePublisherDomains =>
    rw [stepEda] at h
    rcases hc : df.getCol "publisher" with - | p <;> rw [hc] at h
    · simp at h
    · simp only [Option.map_some', Option.some.injEq] at h
      subst h
      exact setCol_wf _ _ _ hwf (by rw [List.length_map, getCol_length hc hwf])
  case plotPublicationHour =>
    rw [stepEda] at h
    rcases hc : df.getCol "date" with - | d <;> rw [hc] at h
    · simp at h
    · rw [Option.some_bind] at h
      rcases hm : d.mapM hourOf with - | hs <;> rw [hm] at h
      · simp at h
      · simp only [Option.map_some', Option.some.injEq] at h
        subst h
        exact setCol_wf _ _ _ hwf (by rw [mapM_length hm, getCol_length hc hwf])
  case preprocessText =>
    rw [stepEda] at h
    rcases hc : df.getCol "headline" with - | hh <;> rw [hc] at h
    · simp at h
    · simp only [Option.map_some', Option.some.injEq] at h
      subst h
      exact setCol_wf _ _ _ hwf (by rw [List.length_map, getCol_length hc hwf])
  case performLda =>
    rw [stepEda] at h
    rcases hc : df.getCol "clean_headline" with - | hh <;> rw [hc] at h
    · simp at h
    · simp only [Option.map_some', Option.some.injEq] at h
      subst h
      exact setCol_wf _ _ _ hwf (by rw [hlda hh, getCol_length hc hwf])
  case sentimentAnalysis =>
    rw [stepEda] at h
    rcases hc : df.getCol "headline" with - | hh <;> rw [hc] at h
    · simp at h
    · rw [Option.some_bind] at h
      rcases hm : hh.mapM (getSentimentVal nlp.polarity) with - | ss <;> rw [hm] at h
      · simp at h
      · simp only [Option.map_some', Option.some.injEq] at h
        subst h
        exact setCol_wf _ _ _ hwf (by rw [mapM_length hm, getCol_length hc hwf])
  all_goals (
    rw [stepEda] at h
    first
    | (rcases hc : df.getCol "publisher" with - | p <;> rw [hc] at h
       · simp at h
       · simp only [Option.map_some', Option.some.injEq] at h
         subst h
         exact hwf)
    | (rcases hc : df.getCol "date_only" with - | p <;> rw [hc] at h
       · simp at h
       · simp only [Option.map_some', Option.some.injEq] at h
         subst h
         exact hwf))

theorem runStock_spec (lib : TALib) (pyn : PyNanceInd) :
    ∀ (trace : List SMethod) (df df' : DataFrame),
      runStock lib pyn trace df = some df' →
      df'.index = df.index ∧
        (∀ x, x ∈ df'.names ↔ x ∈ df.names ∨ ∃ m ∈ trace, x ∈ outputColsS m) ∧
        (∀ nm, (∀ m ∈ trace, nm ∉ outputColsS m) → df'.getCol nm = df.getCol nm) := by
  intro trace
  induction trace with
  | nil =>
    intro df df' h
    rw [runStock] at h
    simp only [Option.some.injEq] at h
    subst h
    exact ⟨rfl, fun x => by simp, fun _ _ => rfl⟩
  | cons m ms ih =>
    intro df df' h
    rw [runStock] at h
    rcases hs : stepStock lib pyn m df with - | df1 <;> rw [hs] at h
    · simp at h
    · rw [Option.some_bind] at h
      obtain ⟨hi1, hn1, hg1⟩ := stepStock_spec _ _ _ _ _ hs
      obtain ⟨hi2, hn2, hg2⟩ := ih df1 df' h
      refine ⟨hi2.trans hi1, ?_, ?_⟩
      · intro x
        rw [hn2 x, hn1 x, List.exists_mem_cons_iff]
        tauto
      · intro nm hno
        rw [hg2 nm (fun m' hm' => hno m' (List.mem_cons_of_mem m hm')),
          hg1 nm (hno m (List.mem_cons_self m ms))]

theorem runStock_wf (lib : TALib) (pyn : PyNanceInd) (hlib : lib.wf) (hpyn : pyn.wf) :
    ∀ (trace : List SMethod) (df df' : DataFrame),
      runStock lib pyn trace df = some df' → df.wf → df'.wf := by
  intro trace
  induction trace with
  | nil =>
    intro df df' h hwf
    rw [runStock] at h
    simp only [Option.some.injEq] at h
    subst h
    exact hwf
  | cons m ms ih =>
    intro df df' h hwf
    rw [runStock] at h
    rcases hs : stepStock lib pyn m df with - | df1 <;> rw [hs] at h
    · simp at h
    · rw [Option.some_bind] at h
      exact ih df1 df' h (stepStock_wf _ _ _ _ _ hlib hpyn hwf hs)

theorem runEda_spec (nlp : NLPLib) :
    ∀ (trace : List EMethod) (df df' : DataFrame),
      runEda nlp trace df = some df' →
      df'.index = df.index ∧
        (∀ x, x ∈ df'.names ↔ x ∈ df.names ∨ ∃ m ∈ trace, x ∈ outputColsE m) ∧
        (∀ nm, (∀ m ∈ trace, nm ∉ outputColsE m) → df'.getCol nm = df.getCol nm) := by
  intro trace
  induction trace with
  | nil =>
    intro df df' h
    rw [runEda] at h
    simp only [Option.some.injEq] at h
    subst h
    exact ⟨rfl, fun x => by simp, fun _ _ => rfl⟩
  | cons m ms ih =>
    intro df df' h
    rw [runEda] at h
    rcases hs : stepEda nlp m df with - | df1 <;> rw [hs] at h
    · simp at h
    · rw [Option.some_bind] at h
      obtain ⟨hi1, hn1, hg1⟩ := stepEda_spec _ _ _ _ hs
      obtain ⟨hi2, hn2, hg2⟩ := ih df1 df' h
      refine ⟨hi2.trans hi1, ?_, ?_⟩
      · intro x
        rw [hn2 x, hn1 x, List.exists_mem_cons_iff]
        tauto
      · intro nm hno
        rw [hg2 nm (fun m' hm' => hno m' (List.mem_cons_of_mem m hm')),
          hg1 nm (hno m (List.mem_cons_self m ms))]

theorem Heap.get_set_ne (h : Heap) (sr r : Nat) (df : DataFrame) (hne : r ≠ sr) :
    (h.set sr df).get r = h.get r := by
  show (h.cells.set sr df).getD r (DataFrame.mk [] []) = h.cells.getD r (DataFrame.mk [] [])
  rw [List.getD_eq_getElem?_getD, List.getElem?_set_ne (fun he => hne he.symm),
    List.getD_eq_getElem?_getD]

theorem Heap.get_alloc_lt (h : Heap) (df : DataFrame) (r : Nat) (hr : r < h.cells.length) :
    (h.alloc df).1.get r = h.get r := by
  show ((h.cells ++ [df]).getD r (DataFrame.mk [] [])) = h.cells.getD r (DataFrame.mk [] [])
  rw [List.getD_eq_getElem?_getD, List.getElem?_append_left hr, List.getD_eq_getElem?_getD]

theorem runStockH_frame (lib : TALib) (pyn : PyNanceInd) :
    ∀ (trace : List SMethod) (h : Heap) (sr : Nat) (h2 : Heap),
      runStockH lib pyn trace h sr = some h2 → ∀ r, r ≠ sr → h2.get r = h.get r := by
  intro trace
  induction trace with
  | nil =>
    intro h sr h2 hrun r hne
    rw [runStockH] at hrun
    simp only [Option.some.injEq] at hrun
    rw [← hrun]
  | cons m ms ih =>
    intro h sr h2 hrun r hne
    rw [runStockH] at hrun
    rcases hs : stepStock lib pyn m (h.get sr) with - | df' <;> rw [hs] at hrun
    · simp at hrun
    · rw [Option.some_bind] at hrun
      rw [ih (h.set sr df') sr h2 hrun r hne, Heap.get_set_ne h sr r df' hne]

theorem runEdaH_frame (nlp : NLPLib) :
    ∀ (trace : List EMethod) (h : Heap) (sr : Nat) (h2 : Heap),
      runEdaH nlp trace h sr = some h2 → ∀ r, r ≠ sr → h2.get r = h.get r := by
  intro trace
  induction trace with
  | nil =>
    intro h sr h2 hrun r hne
    rw [runEdaH] at hrun
    simp only [Option.some.injEq] at hrun
    rw [← hrun]
  | cons m ms ih =>
    intro h sr h2 hrun r hne
    rw [runEdaH] at hrun
    rcases hs : stepEda nlp m (h.get sr) with - | df' <;> rw [hs] at hrun
    · simp at hrun
    · rw [Option.some_bind] at hrun
      rw [ih (h.set sr df') sr h2 hrun r hne, Heap.get_set_ne h sr r df' hne]

theorem lowerChar_toNat (c : Char) :
    (lowerChar c).toNat =
      if 65 ≤ c.toNat ∧ c.toNat ≤ 90 then c.toNat + 32 else c.toNat := by
  rw [lowerChar]
  split_ifs with hc
  · exact toNat_ofNat_valid _ (isValidChar_of_lt _ (by omega))
  · rfl

theorem lowerChar_not_upper (c : Char) :
    ¬(65 ≤ (lowerChar c).toNat ∧ (lowerChar c).toNat ≤ 90) := by
  rw [lowerChar_toNat]
  split_ifs with hc <;> omega

theorem lowerChar_idem (c : Char) : lowerChar (lowerChar c) = lowerChar c := by
  apply char_eq_of_toNat_eq
  rw [lowerChar_toNat (lowerChar c), if_neg (lowerChar_not_upper c)]

theorem lowerName_idem (s : String) : lowerName (lowerName s) = lowerName s := by
  rw [lowerName, lowerName]
  show String.mk ((s.data.map lowerChar).map lowerChar) = String.mk (s.data.map lowerChar)
  rw [List.map_map]
  congr 1
  apply List.map_congr_left
  intro c _
  exact lowerChar_idem c

theorem lowerName_ne_upper (s t : String)
    (ht : 65 ≤ (t.data.headD 'x').toNat ∧ (t.data.headD 'x').toNat ≤ 90) :
    lowerName s ≠ t := by
  intro he
  have hdata : s.data.map lowerChar = t.data := congrArg String.data he
  cases hs : s.data with
  | nil =>
    rw [hs] at hdata
    rw [← hdata] at ht
    simp at ht
  | cons c cs =>
    rw [hs, List.map_cons] at hdata
    rw [← hdata] at ht
    exact lowerChar_not_upper c ht

theorem lowerCols_wf (df : DataFrame) (h : df.wf) : (lowerCols df).wf := by
  intro c hc
  rw [lowerCols] at hc
  obtain ⟨c0, hc0, rfl⟩ := List.mem_map.mp hc
  exact h c0 hc0

theorem mem_names_lowerCols (df : DataFrame) (nm : String) :
    nm ∈ (lowerCols df).names → ∃ s, nm = lowerName s := by
  intro h
  rw [lowerCols] at h
  obtain ⟨c0, hc0, rfl⟩ := List.mem_map.mp h
  obtain ⟨c1, hc1, rfl⟩ := List.mem_map.mp hc0
  exact ⟨c1.1, rfl⟩

theorem addTickerCol_wf (tk : String) (df : DataFrame) (h : df.wf) : (addTickerCol tk df).wf :=
  setCol_wf df "ticker" _ h (List.length_replicate _ _)

theorem resetIndex_getCol (df : DataFrame) (nm : String) :
    (resetIndex df).getCol nm = df.getCol nm := rfl

theorem resetIndex_names (df : DataFrame) : (resetIndex df).names = df.names := rfl

theorem stockInitFrom_spec (tk : String) (df0 df : DataFrame) (hwf0 : df0.wf)
    (h : stockInitFrom tk df0 = Except.ok df) :
    df.wf ∧
      df.index = List.range df.index.length ∧
      (∀ nm ∈ df.names, nm = "ticker" ∨ ∃ s, nm = lowerName s) ∧
      (∃ vs, df.getCol "ticker" = some vs ∧ ∀ v ∈ vs, v = Value.str tk) ∧
      (∃ vs, df.getCol "date" = some vs ∧ vs.Sorted Value.le) := by
  rw [stockInitFrom] at h
  rcases hs : (addTickerCol tk (lowerCols df0)).sortValuesDate with - | df3 <;> rw [hs] at h
  · cases h
  · simp only [Except.ok.injEq] at h
    subst h
    have hwf2 : (addTickerCol tk (lowerCols df0)).wf :=
      addTickerCol_wf tk _ (lowerCols_wf df0 hwf0)
    have hdate : ∃ keyvs, (addTickerCol tk (lowerCols df0)).getCol "date" = some keyvs := by
      rw [DataFrame.sortValuesDate] at hs
      rcases hg : (addTickerCol tk (lowerCols df0)).getCol "date" with - | keyvs <;>
        rw [hg] at hs
      · simp at hs
      · exact ⟨keyvs, rfl⟩
    obtain ⟨keyvs, hkey⟩ := hdate
    obtain ⟨df3', hs', hnames, hidx, hwf3, hsorted, hcols⟩ :=
      sortValuesDate_spec (addTickerCol tk (lowerCols df0)) keyvs hkey hwf2
    rw [hs] at hs'
    have hdf3 : df3 = df3' := Option.some.inj hs'
    subst hdf3
    refine ⟨?_, ?_, ?_, ?_, ?_⟩
    · intro c hc
      show c.2.length = (List.range df3.index.length).length
      rw [List.length_range]
      exact hwf3 c hc
    · show List.range df3.index.length = List.range (List.range df3.index.length).length
      rw [List.length_range]
    · intro nm hnm
      rw [resetIndex_names, hnames] at hnm
      rcases (mem_names_setCol (lowerCols df0) "ticker" _ nm).mp hnm with hm | hm
      · exact Or.inr (mem_names_lowerCols df0 nm hm)
      · exact Or.inl hm
    · have htick : (addTickerCol tk (lowerCols df0)).getCol "ticker" =
          some (List.replicate (lowerCols df0).index.length (Value.str tk)) :=
        getCol_setCol_self _ _ _
      obtain ⟨vs, hvs, -, hmem⟩ := hcols "ticker" _ htick
      refine ⟨vs, ?_, ?_⟩
      · rw [resetIndex_getCol]
        exact hvs
      · intro v hv
        exact List.eq_of_mem_replicate (hmem v hv)
    · obtain ⟨vs, hvs, hsort⟩ := hsorted
      refine ⟨vs, ?_, hsort⟩
      rw [resetIndex_getCol]
      exact hvs

theorem readCsv_wf {dateCol : String} {g : Grid} {df : DataFrame}
    (h : readCsv dateCol g = some df) : df.wf := by
  rcases g with - | ⟨header, body⟩
  · rw [readCsv] at h
    simp at h
  · rw [readCsv] at h
    split_ifs at h with hcond
    simp only [Option.some.injEq] at h
    subst h
    intro c hc
    obtain ⟨j, -, rfl⟩ := List.mem_map.mp hc
    show (colParse dateCol (header.getD j "") (body.map (fun r => r.getD j ""))).length =
      (List.range body.length).length
    rw [colParse_length, List.length_map, List.length_range]

theorem stockInit_ok {tk : String} {dfOpt : Option DataFrame} {fileOpt : Option Grid}
    {df : DataFrame} (hwf0 : ∀ d, dfOpt = some d → d.wf)
    (h : stockInit tk dfOpt fileOpt = Except.ok df) :
    ∃ df0, df0.wf ∧ stockInitFrom tk df0 = Except.ok df := by
  cases dfOpt with
  | some d =>
    rw [stockInit] at h
    exact ⟨d, hwf0 d rfl, h⟩
  | none =>
    cases fileOpt with
    | some g =>
      rw [stockInit] at h
      rcases hr : readCsv "Date" g with - | d0 <;> rw [hr] at h
      · cases h
      · exact ⟨d0, readCsv_wf hr, h⟩
    | none =>
      rw [stockInit] at h
      cases h

theorem outputColsS_MA20 (m : SMethod) :
    "MA_20" ∈ outputColsS m ↔ m = SMethod.addTechnicalIndicators := by
  cases m <;> simp [outputColsS]

theorem outputColsS_MA50 (m : SMethod) :
    "MA_50" ∈ outputColsS m ↔ m = SMethod.addTechnicalIndicators := by
  cases m <;> simp [outputColsS]

theorem outputColsS_RSI (m : SMethod) :
    "RSI" ∈ outputColsS m ↔ m = SMethod.addTechnicalIndicators := by
  cases m <;> simp [outputColsS]

theorem outputColsS_MACD (m : SMethod) :
    "MACD" ∈ outputColsS m ↔ m = SMethod.addTechnicalIndicators := by
  cases m <;> simp [outputColsS]

theorem outputColsS_MACDsig (m : SMethod) :
    "MACD_signal" ∈ outputColsS m ↔ m = SMethod.addTechnicalIndicators := by
  cases m <;> simp [outputColsS]

theorem outputColsS_MACDhist (m : SMethod) :
    "MACD_hist" ∈ outputColsS m ↔ m = SMethod.addTechnicalIndicators := by
  cases m <;> simp [outputColsS]

theorem outputColsS_daily (m : SMethod) :
    "daily_return" ∈ outputColsS m ↔ m = SMethod.computeDailyReturns := by
  cases m <;> simp [outputColsS]

theorem outputColsS_vol (m : SMethod) :
    "volatility" ∈ outputColsS m ↔ m = SMethod.calculatePynanceMetrics := by
  cases m <;> simp [outputColsS]

theorem outputColsS_mom (m : SMethod) :
    "momentum" ∈ outputColsS m ↔ m = SMethod.calculatePynanceMetrics := by
  cases m <;> simp [outputColsS]

theorem outputColsS_date (m : SMethod) : "date" ∉ outputColsS m := by
  cases m <;> simp [outputColsS]

theorem run_names_iff (lib : TALib) (pyn : PyNanceInd) (trace : List SMethod)
    (df df' : DataFrame) (h : runStock lib pyn trace df = some df') (x : String)
    (hx : x ∉ df.names) (mt : SMethod) (hout : ∀ m : SMethod, x ∈ outputColsS m ↔ m = mt) :
    x ∈ df'.names ↔ mt ∈ trace := by
  rw [(runStock_spec lib pyn trace df df' h).2.1 x]
  constructor
  · rintro (hm | ⟨m, hm, hxm⟩)
    · exact absurd hm hx
    · rw [hout m] at hxm
      rw [← hxm]
      exact hm
  · intro hmt
    exact Or.inr ⟨mt, hmt, (hout mt).mpr rfl⟩

theorem init_no_upper (tk : String) (df0 df : DataFrame) (hwf0 : df0.wf)
    (h : stockInitFrom tk df0 = Except.ok df) (x : String)
    (hup : 65 ≤ (x.data.headD 'z').toNat ∧ (x.data.headD 'z').toNat ≤ 90) : x ∉ df.names := by
  intro hmem
  obtain ⟨-, -, hnames, -, -⟩ := stockInitFrom_spec tk df0 df hwf0 h
  rcases hnames x hmem with hm | ⟨s, hm⟩
  · rw [hm] at hup
    simp at hup
  · have hne := lowerName_ne_upper s x (by
      have hd : (x.data.headD 'x') = (x.data.headD 'z') := by
        cases hxd : x.data with
        | nil =>
          rw [hxd] at hup
          simp at hup
        | cons c cs => rfl
      rw [hd]
      exact hup)
    exact hne hm.symm

theorem zipDivM_replace : ∀ (close splits : List Value),
    close.length = splits.length →
    (∀ v ∈ close, ∃ q : ℚ, v = Value.num q) →
    (∀ v ∈ splits, (∃ q : ℚ, v = Value.num q) ∨ v = Value.na) →
    ∃ adj, zipDivM close (splits.map replaceZeroOne) = some adj ∧
      adj.length = close.length ∧
      (∀ i, i < close.length →
        divVal (close.getD i Value.na) (replaceZeroOne (splits.getD i Value.na)) =
          some (adj.getD i Value.na)) ∧
      (∀ i, i < close.length → splits.getD i Value.na = Value.num 0 →
        adj.getD i Value.na = close.getD i Value.na) := by
  intro close
  induction close with
  | nil =>
    intro splits hlen hc hs
    cases splits with
    | nil =>
      refine ⟨[], rfl, rfl, ?_, ?_⟩ <;> (intro i hi; simp at hi)
    | cons b bs => simp at hlen
  | cons a as' ih =>
    intro splits hlen hc hs
    cases splits with
    | nil => simp at hlen
    | cons b bs =>
      obtain ⟨qa, rfl⟩ := hc a (List.mem_cons_self a as')
      have hdiv : ∃ v, divVal (Value.num qa) (replaceZeroOne b) = some v ∧
          (b = Value.num 0 → v = Value.num qa) := by
        rcases hs b (List.mem_cons_self b bs) with hqb | hna
        · obtain ⟨qb, rfl⟩ := hqb
          rw [replaceZeroOne]
          split_ifs with hqb
          · refine ⟨Value.num (qa / 1), by rw [divVal, if_neg one_ne_zero], ?_⟩
            intro _
            rw [div_one]
          · refine ⟨Value.num (qa / qb), by rw [divVal, if_neg hqb], ?_⟩
            intro hb0
            exact absurd (Value.num.inj hb0) hqb
        · subst hna
          exact ⟨Value.na, rfl, fun hb0 => by cases hb0⟩
      obtain ⟨v, hv, hv0⟩ := hdiv
      have hlen' : as'.length = bs.length := by
        rw [List.length_cons, List.length_cons] at hlen
        omega
      obtain ⟨adj', hz', hlen'', hdiv', hzero'⟩ := ih bs hlen'
        (fun x hx => hc x (List.mem_cons_of_mem _ hx))
        (fun x hx => hs x (List.mem_cons_of_mem _ hx))
      refine ⟨v :: adj', ?_, ?_, ?_, ?_⟩
      · rw [List.map_cons, zipDivM, hv, Option.some_bind, hz', Option.map_some']
      · rw [List.length_cons, List.length_cons, hlen'']
      · intro i hi
        cases i with
        | zero => exact hv
        | succ k =>
          rw [List.length_cons] at hi
          exact hdiv' k (by omega)
      · intro i hi hb0
        cases i with
        | zero => exact hv0 hb0
        | succ k =>
          rw [List.length_cons] at hi
          exact hzero' k (by omega) hb0

theorem idTALib_wf : idTALib.wf :=
  ⟨fun _ _ => rfl, fun _ _ => rfl, fun _ => ⟨rfl, rfl, rfl⟩⟩

theorem idPyNance_wf : idPyNance.wf := ⟨fun _ => rfl, fun _ _ => rfl⟩

theorem zeroNLP_polarity_wf : zeroNLP.polarity_wf :=
  fun _ => ⟨show (-1 : ℚ) ≤ 0 by norm_num, show (0 : ℚ) ≤ 1 by norm_num⟩

theorem zeroNLP_lda_wf : zeroNLP.lda_wf := fun _ => rfl

/-! ### The claims -/

/-- Claim C1: `FinancialNewsEDA.sentiment_analysis` assigns to every headline
a sentiment score that is 0 when the headline is missing (`NaN`), and lies in
the closed interval `[-1, 1]` when the headline is text (in particular
non-empty text), assuming TextBlob's documented polarity range. -/
theorem claim_C1_sentiment_range (nlp : NLPLib) (hpol : nlp.polarity_wf)
    (df df' : DataFrame) (hl : List Value) (hh : df.getCol "headline" = some hl)
    (h : stepEda nlp EMethod.sentimentAnalysis df = some df') :
    ∃ ss, df'.getCol "sentiment" = some ss ∧ ss.length = hl.length ∧
      ∀ i, i < hl.length →
        (hl.getD i Value.na = Value.na → ss.getD i Value.na = Value.num 0) ∧
        (∀ t : String, hl.getD i Value.na = Value.str t →
          ∃ q : ℚ, ss.getD i Value.na = Value.num q ∧ -1 ≤ q ∧ q ≤ 1) := by
  rw [stepEda, hh, Option.some_bind] at h
  rcases hm : hl.mapM (getSentimentVal nlp.polarity) with - | ss <;> rw [hm] at h
  · simp at h
  · simp only [Option.map_some', Option.some.injEq] at h
    subst h
    refine ⟨ss, getCol_setCol_self _ _ _, mapM_length hm, ?_⟩
    intro i hi
    have hgd := mapM_getD hm i Value.na Value.na hi
    constructor
    · intro hna
      rw [hna] at hgd
      simp only [getSentimentVal, Option.some.injEq] at hgd
      exact hgd.symm
    · intro t ht
      rw [ht] at hgd
      simp only [getSentimentVal, Option.some.injEq] at hgd
      exact ⟨nlp.polarity t, hgd.symm, (hpol t).1, (hpol t).2⟩

theorem claim_C1_witness :
    zeroNLP.polarity_wf ∧
      (DataFrame.mk [("headline", [Value.na, Value.str "up"])] [0, 1]).getCol "headline" =
        some [Value.na, Value.str "up"] ∧
      stepEda zeroNLP EMethod.sentimentAnalysis
        (DataFrame.mk [("headline", [Value.na, Value.str "up"])] [0, 1]) =
        some (DataFrame.mk
          [("headline", [Value.na, Value.str "up"]), ("sentiment", [Value.num 0, Value.num 0])]
          [0, 1]) ∧
      (∃ ss, (DataFrame.mk
          [("headline", [Value.na, Value.str "up"]), ("sentiment", [Value.num 0, Value.num 0])]
          [0, 1]).getCol "sentiment" = some ss ∧
        ss.length = ([Value.na, Value.str "up"] : List Value).length ∧
        ∀ i, i < ([Value.na, Value.str "up"] : List Value).length →
          (([Value.na, Value.str "up"] : List Value).getD i Value.na = Value.na →
            ss.getD i Value.na = Value.num 0) ∧
          (∀ t : String, ([Value.na, Value.str "up"] : List Value).getD i Value.na =
              Value.str t →
            ∃ q : ℚ, ss.getD i Value.na = Value.num q ∧ -1 ≤ q ∧ q ≤ 1)) :=
  ⟨zeroNLP_polarity_wf, by decide, by decide,
    claim_C1_sentiment_range zeroNLP zeroNLP_polarity_wf
      (DataFrame.mk [("headline", [Value.na, Value.str "up"])] [0, 1])
      (DataFrame.mk
        [("headline", [Value.na, Value.str "up"]), ("sentiment", [Value.num 0, Value.num 0])]
        [0, 1])
      [Value.na, Value.str "up"] (by decide) (by decide)⟩

/-- Claim C2: for input tables whose `date` column holds parsed timestamps,
`align_dates` replaces the `date` column of both the news and the stock table
with the calendar date of each timestamp (time of day dropped) and returns
both tables. -/
theorem claim_C2_align_dates (news stock : DataFrame) (nd sd : List Value)
    (hn : news.getCol "date" = some nd) (hs : stock.getCol "date" = some sd)
    (hnd : ∀ v ∈ nd, ∃ t : DateTime, v = Value.vdt t)
    (hsd : ∀ v ∈ sd, ∃ t : DateTime, v = Value.vdt t) :
    align_dates news stock =
      some (news.setCol "date" (nd.map dtDateTotal),
        stock.setCol "date" (sd.map dtDateTotal)) ∧
      (news.setCol "date" (nd.map dtDateTotal)).getCol "date" = some (nd.map dtDateTotal) ∧
      (stock.setCol "date" (sd.map dtDateTotal)).getCol "date" = some (sd.map dtDateTotal) ∧
      (∀ i, i < nd.length → ∀ t : DateTime, nd.getD i Value.na = Value.vdt t →
        (nd.map dtDateTotal).getD i Value.na = calendarDate t) ∧
      (∀ i, i < sd.length → ∀ t : DateTime, sd.getD i Value.na = Value.vdt t →
        (sd.map dtDateTotal).getD i Value.na = calendarDate t) := by
  have hmapn : nd.mapM dtDateCell = some (nd.map dtDateTotal) := by
    apply mapM_eq_some_map
    intro v hv
    obtain ⟨t, rfl⟩ := hnd v hv
    rfl
  have hmaps : sd.mapM dtDateCell = some (sd.map dtDateTotal) := by
    apply mapM_eq_some_map
    intro v hv
    obtain ⟨t, rfl⟩ := hsd v hv
    rfl
  refine ⟨?_, getCol_setCol_self _ _ _, getCol_setCol_self _ _ _, ?_, ?_⟩
  · rw [align_dates, hn, Option.some_bind, hmapn, Option.some_bind, hs, Option.some_bind,
      hmaps, Option.map_some']
  · intro i hi t ht
    rw [getD_map_lt nd dtDateTotal i hi, ← List.getD_eq_getElem nd Value.na hi, ht]
    rfl
  · intro i hi t ht
    rw [getD_map_lt sd dtDateTotal i hi, ← List.getD_eq_getElem sd Value.na hi, ht]
    rfl

theorem claim_C2_witness :
    (DataFrame.mk [("date", [Value.vdt (DateTime.mk 2020 1 2 9 30 0 false)])] [0]).getCol
        "date" = some [Value.vdt (DateTime.mk 2020 1 2 9 30 0 false)] ∧
      (DataFrame.mk [("date", [Value.vdt (DateTime.mk 2021 6 7 16 0 5 false)])] [0]).getCol
        "date" = some [Value.vdt (DateTime.mk 2021 6 7 16 0 5 false)] ∧
      (∀ v ∈ [Value.vdt (DateTime.mk 2020 1 2 9 30 0 false)], ∃ t, v = Value.vdt t) ∧
      (∀ v ∈ [Value.vdt (DateTime.mk 2021 6 7 16 0 5 false)], ∃ t, v = Value.vdt t) ∧
      align_dates
        (DataFrame.mk [("date", [Value.vdt (DateTime.mk 2020 1 2 9 30 0 false)])] [0])
        (DataFrame.mk [("date", [Value.vdt (DateTime.mk 2021 6 7 16 0 5 false)])] [0]) =
        some ((DataFrame.mk [("date", [Value.vdt (DateTime.mk 2020 1 2 9 30 0 false)])]
            [0]).setCol "date"
            ([Value.vdt (DateTime.mk 2020 1 2 9 30 0 false)].map dtDateTotal),
          (DataFrame.mk [("date", [Value.vdt (DateTime.mk 2021 6 7 16 0 5 false)])]
            [0]).setCol "date"
            ([Value.vdt (DateTime.mk 2021 6 7 16 0 5 false)].map dtDateTotal)) :=
  ⟨by decide, by decide,
    fun v hv => ⟨DateTime.mk 2020 1 2 9 30 0 false, by
      rcases List.mem_singleton.mp hv with rfl
      rfl⟩,
    fun v hv => ⟨DateTime.mk 2021 6 7 16 0 5 false, by
      rcases List.mem_singleton.mp hv with rfl
      rfl⟩,
    (claim_C2_align_dates _ _ _ _ (by decide) (by decide)
      (fun v hv => ⟨DateTime.mk 2020 1 2 9 30 0 false, by
        rcases List.mem_singleton.mp hv with rfl
        rfl⟩)
      (fun v hv => ⟨DateTime.mk 2021 6 7 16 0 5 false, by
        rcases List.mem_singleton.mp hv with rfl
        rfl⟩)).1⟩

/-- Claim C3: a pair of tables loaded by `load_data`, written back with
`save_data` and loaded again yields tables with the same number of rows and
the same values in every column. -/
theorem claim_C3_csv_roundtrip (g1 g2 : Grid) (n s : DataFrame)
    (h : load_data g1 g2 = some (n, s)) :
    ∃ n' s', load_data (save_data n) (save_data s) = some (n', s') ∧
      n'.nRows = n.nRows ∧ s'.nRows = s.nRows ∧
      (∀ nm, n'.getCol nm = n.getCol nm) ∧ (∀ nm, s'.getCol nm = s.getCol nm) := by
  rw [load_data] at h
  rcases h1 : readCsv "date" g1 with - | n0 <;> rw [h1] at h
  · simp at h
  · rw [Option.some_bind] at h
    rcases h2 : readCsv "date" g2 with - | s0 <;> rw [h2] at h
    · simp at h
    · simp only [Option.map_some', Option.some.injEq, Prod.mk.injEq] at h
      obtain ⟨rfl, rfl⟩ := h
      refine ⟨n0, s0, ?_, rfl, rfl, fun _ => rfl, fun _ => rfl⟩
      rw [load_data, save_data, save_data, readCsv_writeCsv h1, Option.some_bind,
        readCsv_writeCsv h2, Option.map_some']

theorem claim_C3_witness :
    load_data [["date", "close"], ["2020-01-02", "3"]] [["date"], ["2021-06-07"]] =
      some (DataFrame.mk
        [("date", [Value.vdt (DateTime.mk 2020 1 2 0 0 0 false)]),
          ("close", [Value.num 3])] [0],
        DataFrame.mk [("date", [Value.vdt (DateTime.mk 2021 6 7 0 0 0 false)])] [0]) ∧
      (∃ n' s', load_data
          (save_data (DataFrame.mk
            [("date", [Value.vdt (DateTime.mk 2020 1 2 0 0 0 false)]),
              ("close", [Value.num 3])] [0]))
          (save_data (DataFrame.mk
            [("date", [Value.vdt (DateTime.mk 2021 6 7 0 0 0 false)])] [0])) =
          some (n', s') ∧
        n'.nRows = (DataFrame.mk
          [("date", [Value.vdt (DateTime.mk 2020 1 2 0 0 0 false)]),
            ("close", [Value.num 3])] [0]).nRows ∧
        s'.nRows = (DataFrame.mk
          [("date", [Value.vdt (DateTime.mk 2021 6 7 0 0 0 false)])] [0]).nRows ∧
        (∀ nm, n'.getCol nm = (DataFrame.mk
          [("date", [Value.vdt (DateTime.mk 2020 1 2 0 0 0 false)]),
            ("close", [Value.num 3])] [0]).getCol nm) ∧
        (∀ nm, s'.getCol nm = (DataFrame.mk
          [("date", [Value.vdt (DateTime.mk 2021 6 7 0 0 0 false)])] [0]).getCol nm)) := by
  have hload : load_data [["date", "close"], ["2020-01-02", "3"]]
      [["date"], ["2021-06-07"]] =
      some (DataFrame.mk
        [("date", [Value.vdt (DateTime.mk 2020 1 2 0 0 0 false)]),
          ("close", [Value.num 3])] [0],
        DataFrame.mk [("date", [Value.vdt (DateTime.mk 2021 6 7 0 0 0 false)])] [0]) := by
    decide
  exact ⟨hload, claim_C3_csv_roundtrip _ _ _ _ hload⟩

/-- Claim C4, amended: after a successful construction, the six TA-Lib
indicator columns are present exactly when `add_technical_indicators` has
been invoked — unconditionally, because `__init__` lower-cases every column
name and those six names contain upper-case letters; for the all-lower-case
names `daily_return`, `volatility` and `momentum` the same holds provided the
constructed table does not already contain a column of that name (the
original claim fails otherwise, see the counterexample). -/
theorem claim_C4_indicator_columns (lib : TALib) (pyn : PyNanceInd) (tk : String)
    (dfOpt : Option DataFrame) (fileOpt : Option Grid) (df : DataFrame)
    (hwf0 : ∀ d, dfOpt = some d → d.wf)
    (hinit : stockInit tk dfOpt fileOpt = Except.ok df)
    (trace : List SMethod) (df' : DataFrame)
    (hrun : runStock lib pyn trace df = some df') :
    ("MA_20" ∈ df'.names ↔ SMethod.addTechnicalIndicators ∈ trace) ∧
      ("MA_50" ∈ df'.names ↔ SMethod.addTechnicalIndicators ∈ trace) ∧
      ("RSI" ∈ df'.names ↔ SMethod.addTechnicalIndicators ∈ trace) ∧
      ("MACD" ∈ df'.names ↔ SMethod.addTechnicalIndicators ∈ trace) ∧
      ("MACD_signal" ∈ df'.names ↔ SMethod.addTechnicalIndicators ∈ trace) ∧
      ("MACD_hist" ∈ df'.names ↔ SMethod.addTechnicalIndicators ∈ trace) ∧
      ("daily_return" ∉ df.names →
        ("daily_return" ∈ df'.names ↔ SMethod.computeDailyReturns ∈ trace)) ∧
      ("volatility" ∉ df.names →
        ("volatility" ∈ df'.names ↔ SMethod.calculatePynanceMetrics ∈ trace)) ∧
      ("momentum" ∉ df.names →
        ("momentum" ∈ df'.names ↔ SMethod.calculatePynanceMetrics ∈ trace)) := by
  obtain ⟨df0, hwfd, hfrom⟩ := stockInit_ok hwf0 hinit
  have hup : ∀ x : String,
      65 ≤ (x.data.headD 'z').toNat ∧ (x.data.headD 'z').toNat ≤ 90 → x ∉ df.names :=
    fun x hx => init_no_upper tk df0 df hwfd hfrom x hx
  refine ⟨?_, ?_, ?_, ?_, ?_, ?_, ?_, ?_, ?_⟩
  · exact run_names_iff lib pyn trace df df' hrun _ (hup _ (by decide)) _ outputColsS_MA20
  · exact run_names_iff lib pyn trace df df' hrun _ (hup _ (by decide)) _ outputColsS_MA50
  · exact run_names_iff lib pyn trace df df' hrun _ (hup _ (by decide)) _ outputColsS_RSI
  · exact run_names_iff lib pyn trace df df' hrun _ (hup _ (by decide)) _ outputColsS_MACD
  · exact run_names_iff lib pyn trace df df' hrun _ (hup _ (by decide)) _ outputColsS_MACDsig
  · exact run_names_iff lib pyn trace df df' hrun _ (hup _ (by decide)) _ outputColsS_MACDhist
  · intro hno
    exact run_names_iff lib pyn trace df df' hrun _ hno _ outputColsS_daily
  · intro hno
    exact run_names_iff lib pyn trace df df' hrun _ hno _ outputColsS_vol
  · intro hno
    exact run_names_iff lib pyn trace df df' hrun _ hno _ outputColsS_mom

theorem claim_C4_counterexample :
    stockInit "AAPL"
        (some (DataFrame.mk
          [("date", [Value.vdate 2020 1 2]), ("daily_return", [Value.num 42])] [0])) none =
      Except.ok (DataFrame.mk
        [("date", [Value.vdate 2020 1 2]), ("daily_return", [Value.num 42]),
          ("ticker", [Value.str "AAPL"])] [0]) ∧
      "daily_return" ∈ (DataFrame.mk
        [("date", [Value.vdate 2020 1 2]), ("daily_return", [Value.num 42]),
          ("ticker", [Value.str "AAPL"])] [0]).names ∧
      runStock idTALib idPyNance []
        (DataFrame.mk
          [("date", [Value.vdate 2020 1 2]), ("daily_return", [Value.num 42]),
            ("ticker", [Value.str "AAPL"])] [0]) =
        some (DataFrame.mk
          [("date", [Value.vdate 2020 1 2]), ("daily_return", [Value.num 42]),
            ("ticker", [Value.str "AAPL"])] [0]) ∧
      SMethod.computeDailyReturns ∉ ([] : List SMethod) :=
  ⟨rfl, by decide, by decide, by decide⟩

theorem claim_C4_witness :
    (∀ d, (some (DataFrame.mk [("date", [Value.vdate 2020 1 2])] [0]) : Option DataFrame) =
        some d → d.wf) ∧
      stockInit "AAPL" (some (DataFrame.mk [("date", [Value.vdate 2020 1 2])] [0])) none =
        Except.ok (DataFrame.mk
          [("date", [Value.vdate 2020 1 2]), ("ticker", [Value.str "AAPL"])] [0]) ∧
      runStock idTALib idPyNance []
        (DataFrame.mk [("date", [Value.vdate 2020 1 2]), ("ticker", [Value.str "AAPL"])] [0]) =
        some (DataFrame.mk
          [("date", [Value.vdate 2020 1 2]), ("ticker", [Value.str "AAPL"])] [0]) ∧
      (("MA_20" ∈ (DataFrame.mk
          [("date", [Value.vdate 2020 1 2]), ("ticker", [Value.str "AAPL"])] [0]).names ↔
        SMethod.addTechnicalIndicators ∈ ([] : List SMethod)) ∧
        ("MA_50" ∈ (DataFrame.mk
          [("date", [Value.vdate 2020 1 2]), ("ticker", [Value.str "AAPL"])] [0]).names ↔
        SMethod.addTechnicalIndicators ∈ ([] : List SMethod)) ∧
        ("RSI" ∈ (DataFrame.mk
          [("date", [Value.vdate 2020 1 2]), ("ticker", [Value.str "AAPL"])] [0]).names ↔
        SMethod.addTechnicalIndicators ∈ ([] : List SMethod)) ∧
        ("MACD" ∈ (DataFrame.mk
          [("date", [Value.vdate 2020 1 2]), ("ticker", [Value.str "AAPL"])] [0]).names ↔
        SMethod.addTechnicalIndicators ∈ ([] : List SMethod)) ∧
        ("MACD_signal" ∈ (DataFrame.mk
          [("date", [Value.vdate 2020 1 2]), ("ticker", [Value.str "AAPL"])] [0]).names ↔
        SMethod.addTechnicalIndicators ∈ ([] : List SMethod)) ∧
        ("MACD_hist" ∈ (DataFrame.mk
          [("date", [Value.vdate 2020 1 2]), ("ticker", [Value.str "AAPL"])] [0]).names ↔
        SMethod.addTechnicalIndicators ∈ ([] : List SMethod)) ∧
        ("daily_return" ∉ (DataFrame.mk
          [("date", [Value.vdate 2020 1 2]), ("ticker", [Value.str "AAPL"])] [0]).names →
          ("daily_return" ∈ (DataFrame.mk
            [("date", [Value.vdate 2020 1 2]), ("ticker", [Value.str "AAPL"])] [0]).names ↔
          SMethod.computeDailyReturns ∈ ([] : List SMethod))) ∧
        ("volatility" ∉ (DataFrame.mk
          [("date", [Value.vdate 2020 1 2]), ("ticker", [Value.str "AAPL"])] [0]).names →
          ("volatility" ∈ (DataFrame.mk
            [("date", [Value.vdate 2020 1 2]), ("ticker", [Value.str "AAPL"])] [0]).names ↔
          SMethod.calculatePynanceMetrics ∈ ([] : List SMethod))) ∧
        ("momentum" ∉ (DataFrame.mk
          [("date", [Value.vdate 2020 1 2]), ("ticker", [Value.str "AAPL"])] [0]).names →
          ("momentum" ∈ (DataFrame.mk
            [("date", [Value.vdate 2020 1 2]), ("ticker", [Value.str "AAPL"])] [0]).names ↔
          SMethod.calculatePynanceMetrics ∈ ([] : List SMethod)))) :=
  ⟨fun d hd => by
      cases hd
      intro c hc
      fin_cases hc <;> rfl,
    rfl, by decide,
    claim_C4_indicator_columns idTALib idPyNance "AAPL"
      (some (DataFrame.mk [("date", [Value.vdate 2020 1 2])] [0])) none
      (DataFrame.mk [("date", [Value.vdate 2020 1 2]), ("ticker", [Value.str "AAPL"])] [0])
      (fun d hd => by
        cases hd
        intro c hc
        fin_cases hc <;> rfl)
      rfl []
      (DataFrame.mk [("date", [Value.vdate 2020 1 2]), ("ticker", [Value.str "AAPL"])] [0])
      (by decide)⟩

/-- Claim C5, amended: when the table has no `stock splits` column,
`adjust_for_splits` does not raise and silently sets `adjusted_close` equal
to the raw close price on every row; when the column is present,
`adjusted_close` is close divided by the split factor after zero factors are
replaced by 1 (dividing by the raw factor itself is undefined at 0, see the
counterexample). -/
theorem claim_C5_adjust_splits (lib : TALib) (pyn : PyNanceInd) (df : DataFrame)
    (close : List Value) (hc : df.getCol "close" = some close) :
    ("stock splits" ∉ df.names →
      stepStock lib pyn SMethod.adjustForSplits df =
          some (df.setCol "adjusted_close" close) ∧
        (df.setCol "adjusted_close" close).getCol "adjusted_close" = some close) ∧
      (∀ splits, df.getCol "stock splits" = some splits →
        close.length = splits.length →
        (∀ v ∈ close, ∃ q : ℚ, v = Value.num q) →
        (∀ v ∈ splits, (∃ q : ℚ, v = Value.num q) ∨ v = Value.na) →
        ∃ adj, stepStock lib pyn SMethod.adjustForSplits df =
            some (df.setCol "adjusted_close" adj) ∧
          (df.setCol "adjusted_close" adj).getCol "adjusted_close" = some adj ∧
          ∀ i, i < close.length →
            divVal (close.getD i Value.na) (replaceZeroOne (splits.getD i Value.na)) =
              some (adj.getD i Value.na)) := by
  constructor
  · intro hno
    rw [stepStock, hc, Option.some_bind, if_neg hno]
    exact ⟨rfl, getCol_setCol_self _ _ _⟩
  · intro splits hs hlen hcl hsp
    obtain ⟨adj, hz, -, hdiv, -⟩ := zipDivM_replace close splits hlen hcl hsp
    have hmem : "stock splits" ∈ df.names := lookupCol_mem_names hs
    refine ⟨adj, ?_, getCol_setCol_self _ _ _, hdiv⟩
    rw [stepStock, hc, Option.some_bind, if_pos hmem, hs, Option.some_bind, hz,
      Option.map_some']

theorem claim_C5_counterexample :
    stepStock idTALib idPyNance SMethod.adjustForSplits
        (DataFrame.mk [("close", [Value.num 5]), ("stock splits", [Value.num 0])] [0]) =
      some (DataFrame.mk [("close", [Value.num 5]), ("stock splits", [Value.num 0]),
        ("adjusted_close", [Value.num (5 / 1)])] [0]) ∧
      (5 : ℚ) / 1 = 5 ∧
      divVal (Value.num 5) (Value.num 0) = none :=
  ⟨rfl, div_one 5, by decide⟩

theorem claim_C5_witness :
    (DataFrame.mk [("close", [Value.num 5])] [0]).getCol "close" = some [Value.num 5] ∧
      ("stock splits" ∉ (DataFrame.mk [("close", [Value.num 5])] [0]).names →
        stepStock idTALib idPyNance SMethod.adjustForSplits
            (DataFrame.mk [("close", [Value.num 5])] [0]) =
          some ((DataFrame.mk [("close", [Value.num 5])] [0]).setCol "adjusted_close"
            [Value.num 5]) ∧
        ((DataFrame.mk [("close", [Value.num 5])] [0]).setCol "adjusted_close"
          [Value.num 5]).getCol "adjusted_close" = some [Value.num 5]) ∧
      "stock splits" ∉ (DataFrame.mk [("close", [Value.num 5])] [0]).names :=
  ⟨by decide,
    (claim_C5_adjust_splits idTALib idPyNance
      (DataFrame.mk [("close", [Value.num 5])] [0]) [Value.num 5] (by decide)).1,
    by decide⟩

/-- Claim C6: `FinancialNewsEDA.convert_dates` never raises on an unparseable
entry of the `date` column: such entries are silently coerced to `NaT`, with
the derived `date_only` missing as well, while parseable entries (and
already-parsed naive timestamps) become timezone-aware datetimes. -/
theorem claim_C6_convert_dates (nlp : NLPLib) (df : DataFrame) (d : List Value)
    (hd : df.getCol "date" = some d)
    (hcell : ∀ v ∈ d, (∃ s, v = Value.str s) ∨ v = Value.na ∨ ∃ t, v = Value.vdt t) :
    ∃ df', stepEda nlp EMethod.convertDates df = some df' ∧
      df'.getCol "date" = some (d.map toDatetimeUTC) ∧
      df'.getCol "date_only" = some ((d.map toDatetimeUTC).map dtDateTotal) ∧
      ∀ i, i < d.length →
        (∀ s : String, d.getD i Value.na = Value.str s → parseDT s.data = none →
          (d.map toDatetimeUTC).getD i Value.na = Value.na ∧
            ((d.map toDatetimeUTC).map dtDateTotal).getD i Value.na = Value.na) ∧
        (∀ (s : String) (t : DateTime), d.getD i Value.na = Value.str s →
          parseDT s.data = some t →
          (d.map toDatetimeUTC).getD i Value.na =
            Value.vdt (DateTime.mk t.year t.month t.day t.hour t.minute t.second true)) ∧
        (∀ t : DateTime, d.getD i Value.na = Value.vdt t →
          (d.map toDatetimeUTC).getD i Value.na =
            Value.vdt (DateTime.mk t.year t.month t.day t.hour t.minute t.second true)) ∧
        (d.getD i Value.na = Value.na →
          (d.map toDatetimeUTC).getD i Value.na = Value.na ∧
            ((d.map toDatetimeUTC).map dtDateTotal).getD i Value.na = Value.na) := by
  have hstep : stepEda nlp EMethod.convertDates df =
      some ((df.setCol "date" (d.map toDatetimeUTC)).setCol "date_only"
        ((d.map toDatetimeUTC).map dtDateTotal)) := by
    rw [stepEda, hd, Option.map_some']
  have hmap : ∀ i, i < d.length →
      (d.map toDatetimeUTC).getD i Value.na = toDatetimeUTC (d.getD i Value.na) := by
    intro i hi
    rw [getD_map_lt d toDatetimeUTC i hi, ← List.getD_eq_getElem d Value.na hi]
  have hmap2 : ∀ i, i < d.length →
      ((d.map toDatetimeUTC).map dtDateTotal).getD i Value.na =
        dtDateTotal (toDatetimeUTC (d.getD i Value.na)) := by
    intro i hi
    rw [List.map_map, getD_map_lt d _ i hi, ← List.getD_eq_getElem d Value.na hi]
    rfl
  refine ⟨_, hstep, ?_, getCol_setCol_self _ _ _, ?_⟩
  · rw [getCol_setCol_other _ _ _ _ (by decide)]
    exact getCol_setCol_self _ _ _
  · intro i hi
    refine ⟨?_, ?_, ?_, ?_⟩
    · intro s hs hparse
      rw [hmap i hi, hmap2 i hi, hs]
      rw [show toDatetimeUTC (Value.str s) =
        ((parseDT s.data).map (fun t =>
          Value.vdt (DateTime.mk t.year t.month t.day t.hour t.minute t.second true))).getD
            Value.na from by
        rw [toDatetimeUTC]
        rcases parseDT s.data with - | t <;> rfl]
      rw [hparse]
      exact ⟨rfl, rfl⟩
    · intro s t hs hparse
      rw [hmap i hi, hs]
      rw [show toDatetimeUTC (Value.str s) =
        ((parseDT s.data).map (fun t =>
          Value.vdt (DateTime.mk t.year t.month t.day t.hour t.minute t.second true))).getD
            Value.na from by
        rw [toDatetimeUTC]
        rcases parseDT s.data with - | t' <;> rfl]
      rw [hparse]
      rfl
    · intro t ht
      rw [hmap i hi, ht]
      rfl
    · intro hna
      rw [hmap i hi, hmap2 i hi, hna]
      exact ⟨rfl, rfl⟩

theorem claim_C6_witness :
    (DataFrame.mk [("date", [Value.str "2020-01-02", Value.str "not a date"])] [0, 1]).getCol
        "date" = some [Value.str "2020-01-02", Value.str "not a date"] ∧
      (∀ v ∈ [Value.str "2020-01-02", Value.str "not a date"],
        (∃ s, v = Value.str s) ∨ v = Value.na ∨ ∃ t, v = Value.vdt t) ∧
      (∃ df', stepEda zeroNLP EMethod.convertDates
          (DataFrame.mk [("date", [Value.str "2020-01-02", Value.str "not a date"])] [0, 1]) =
          some df' ∧
        df'.getCol "date" =
          some ([Value.str "2020-01-02", Value.str "not a date"].map toDatetimeUTC) ∧
        df'.getCol "date_only" =
          some (([Value.str "2020-01-02", Value.str "not a date"].map toDatetimeUTC).map
            dtDateTotal) ∧
        ∀ i, i < ([Value.str "2020-01-02", Value.str "not a date"] : List Value).length →
          (∀ s : String, ([Value.str "2020-01-02", Value.str "not a date"] :
              List Value).getD i Value.na = Value.str s → parseDT s.data = none →
            ([Value.str "2020-01-02", Value.str "not a date"].map toDatetimeUTC).getD i
              Value.na = Value.na ∧
              (([Value.str "2020-01-02", Value.str "not a date"].map toDatetimeUTC).map
                dtDateTotal).getD i Value.na = Value.na) ∧
          (∀ (s : String) (t : DateTime), ([Value.str "2020-01-02", Value.str "not a date"] :
              List Value).getD i Value.na = Value.str s → parseDT s.data = some t →
            ([Value.str "2020-01-02", Value.str "not a date"].map toDatetimeUTC).getD i
              Value.na =
              Value.vdt (DateTime.mk t.year t.month t.day t.hour t.minute t.second true)) ∧
          (∀ t : DateTime, ([Value.str "2020-01-02", Value.str "not a date"] :
              List Value).getD i Value.na = Value.vdt t →
            ([Value.str "2020-01-02", Value.str "not a date"].map toDatetimeUTC).getD i
              Value.na =
              Value.vdt (DateTime.mk t.year t.month t.day t.hour t.minute t.second true)) ∧
          (([Value.str "2020-01-02", Value.str "not a date"] : List Value).getD i Value.na =
              Value.na →
            ([Value.str "2020-01-02", Value.str "not a date"].map toDatetimeUTC).getD i
              Value.na = Value.na ∧
              (([Value.str "2020-01-02", Value.str "not a date"].map toDatetimeUTC).map
                dtDateTotal).getD i Value.na = Value.na)) :=
  ⟨by decide,
    fun v hv => by
      rcases List.mem_cons.mp hv with rfl | hv2
      · exact Or.inl ⟨"2020-01-02", rfl⟩
      · rcases List.mem_singleton.mp hv2 with rfl
        exact Or.inl ⟨"not a date", rfl⟩,
    claim_C6_convert_dates zeroNLP
      (DataFrame.mk [("date", [Value.str "2020-01-02", Value.str "not a date"])] [0, 1])
      [Value.str "2020-01-02", Value.str "not a date"] (by decide)
      (fun v hv => by
        rcases List.mem_cons.mp hv with rfl | hv2
        · exact Or.inl ⟨"2020-01-02", rfl⟩
        · rcases List.mem_singleton.mp hv2 with rfl
          exact Or.inl ⟨"not a date", rfl⟩)⟩

/-- Claim C7, amended: every column-adding analysis method of either class
mutates the object's single table in place, preserving the row index and the
values of every pre-existing column whose name is not among the columns the
method assigns; a pre-existing column bearing one of the method's output
names is overwritten rather than preserved (see the counterexample), and no
column is ever removed. -/
theorem claim_C7_frame_effect (lib : TALib) (pyn : PyNanceInd) (nlp : NLPLib) :
    (∀ m ∈ [SMethod.addTechnicalIndicators, SMethod.computeDailyReturns,
        SMethod.adjustForSplits],
      ∀ df df' : DataFrame, stepStock lib pyn m df = some df' →
        df'.index = df.index ∧
          (∀ nm ∈ df.names, nm ∈ df'.names) ∧
          ∀ nm, nm ∉ outputColsS m → df'.getCol nm = df.getCol nm) ∧
      ∀ m ∈ [EMethod.headlineLengthStats, EMethod.analyzePublisherDomains,
          EMethod.preprocessText, EMethod.performLda, EMethod.sentimentAnalysis],
        ∀ df df' : DataFrame, stepEda nlp m df = some df' →
          df'.index = df.index ∧
            (∀ nm ∈ df.names, nm ∈ df'.names) ∧
            ∀ nm, nm ∉ outputColsE m → df'.getCol nm = df.getCol nm := by
  constructor
  · intro m _ df df' h
    obtain ⟨hidx, hnames, hcols⟩ := stepStock_spec lib pyn m df df' h
    exact ⟨hidx, fun nm hnm => (hnames nm).mpr (Or.inl hnm), hcols⟩
  · intro m _ df df' h
    obtain ⟨hidx, hnames, hcols⟩ := stepEda_spec nlp m df df' h
    exact ⟨hidx, fun nm hnm => (hnames nm).mpr (Or.inl hnm), hcols⟩

theorem claim_C7_counterexample :
    stepEda zeroNLP EMethod.headlineLengthStats
        (DataFrame.mk
          [("headline", [Value.str "ab"]), ("headline_length", [Value.num 99])] [0]) =
      some (DataFrame.mk
        [("headline", [Value.str "ab"]), ("headline_length", [Value.num 2])] [0]) ∧
      (DataFrame.mk
        [("headline", [Value.str "ab"]), ("headline_length", [Value.num 2])] [0]).getCol
          "headline_length" ≠
        (DataFrame.mk
          [("headline", [Value.str "ab"]), ("headline_length", [Value.num 99])] [0]).getCol
          "headline_length" :=
  ⟨by decide, by decide⟩

theorem claim_C7_witness :
    SMethod.computeDailyReturns ∈ [SMethod.addTechnicalIndicators,
        SMethod.computeDailyReturns, SMethod.adjustForSplits] ∧
      stepStock idTALib idPyNance SMethod.computeDailyReturns
          (DataFrame.mk [("close", [Value.num 5])] [0]) =
        some (DataFrame.mk [("close", [Value.num 5]), ("daily_return", [Value.na])] [0]) ∧
      (DataFrame.mk [("close", [Value.num 5]), ("daily_return", [Value.na])] [0]).index =
        (DataFrame.mk [("close", [Value.num 5])] [0]).index ∧
      (DataFrame.mk [("close", [Value.num 5]), ("daily_return", [Value.na])] [0]).getCol
          "close" =
        (DataFrame.mk [("close", [Value.num 5])] [0]).getCol "close" := by
  have h := (claim_C7_frame_effect idTALib idPyNance zeroNLP).1
    SMethod.computeDailyReturns (by decide)
    (DataFrame.mk [("close", [Value.num 5])] [0])
    (DataFrame.mk [("close", [Value.num 5]), ("daily_return", [Value.na])] [0]) (by decide)
  exact ⟨by decide, by decide, h.1, h.2.2 "close" (by decide)⟩

/-- Claim C8: a table handed to either constructor is copied, so the
caller's object is untouched by construction and by every subsequent run of
methods on the new object: on the heap, the cell the caller holds reads the
same after `StockAnalysis(...)` / `FinancialNewsEDA(...)` and after any
trace of method calls on the constructed object. -/
theorem claim_C8_caller_isolation (lib : TALib) (pyn : PyNanceInd) (nlp : NLPLib)
    (h : Heap) (tk : String) (r : Nat) (hr : r < h.cells.length) :
    (∀ h1 sr, stockNewH h tk r = Except.ok (h1, sr) →
      h1.get r = h.get r ∧
        ∀ trace h2, runStockH lib pyn trace h1 sr = some h2 → h2.get r = h.get r) ∧
      ∀ h1 sr, edaNewH h r = (h1, sr) →
        h1.get r = h.get r ∧
          ∀ trace h2, runEdaH nlp trace h1 sr = some h2 → h2.get r = h.get r := by
  constructor
  · intro h1 sr hnew
    rw [stockNewH] at hnew
    cases hi : stockInitFrom tk (h.get r) with
    | error e =>
      rw [hi] at hnew
      cases hnew
    | ok df =>
      rw [hi] at hnew
      simp only [Heap.alloc, Except.ok.injEq, Prod.mk.injEq] at hnew
      obtain ⟨rfl, rfl⟩ := hnew
      refine ⟨Heap.get_alloc_lt h df r hr, ?_⟩
      intro trace h2 hrun
      rw [runStockH_frame lib pyn trace _ _ h2 hrun r (Nat.ne_of_lt hr)]
      exact Heap.get_alloc_lt h df r hr
  · intro h1 sr hnew
    rw [edaNewH] at hnew
    simp only [Heap.alloc, Prod.mk.injEq] at hnew
    obtain ⟨rfl, rfl⟩ := hnew
    refine ⟨Heap.get_alloc_lt h _ r hr, ?_⟩
    intro trace h2 hrun
    rw [runEdaH_frame nlp trace _ _ h2 hrun r (Nat.ne_of_lt hr)]
    exact Heap.get_alloc_lt h _ r hr

theorem claim_C8_witness :
    (0 : Nat) <
        (Heap.mk [DataFrame.mk [("date", [Value.vdate 2020 1 2]),
          ("close", [Value.num 11])] [0]]).cells.length ∧
      stockNewH (Heap.mk [DataFrame.mk [("date", [Value.vdate 2020 1 2]),
          ("close", [Value.num 11])] [0]]) "AAPL" 0 =
        Except.ok (Heap.mk [DataFrame.mk [("date", [Value.vdate 2020 1 2]),
            ("close", [Value.num 11])] [0],
          DataFrame.mk [("date", [Value.vdate 2020 1 2]), ("close", [Value.num 11]),
            ("ticker", [Value.str "AAPL"])] [0]], 1) ∧
      (Heap.mk [DataFrame.mk [("date", [Value.vdate 2020 1 2]),
          ("close", [Value.num 11])] [0],
        DataFrame.mk [("date", [Value.vdate 2020 1 2]), ("close", [Value.num 11]),
          ("ticker", [Value.str "AAPL"])] [0]]).get 0 =
        (Heap.mk [DataFrame.mk [("date", [Value.vdate 2020 1 2]),
          ("close", [Value.num 11])] [0]]).get 0 := by
  have h := (claim_C8_caller_isolation idTALib idPyNance zeroNLP
    (Heap.mk [DataFrame.mk [("date", [Value.vdate 2020 1 2]),
      ("close", [Value.num 11])] [0]]) "AAPL" 0 (by decide)).1
    (Heap.mk [DataFrame.mk [("date", [Value.vdate 2020 1 2]),
        ("close", [Value.num 11])] [0],
      DataFrame.mk [("date", [Value.vdate 2020 1 2]), ("close", [Value.num 11]),
        ("ticker", [Value.str "AAPL"])] [0]]) 1 rfl
  exact ⟨by decide, rfl, h.1⟩

/-- Claim C9: after a successful `StockAnalysis.__init__` the table's column
names are all lower-case, the `ticker` column holds the ticker argument on
every row, the index is `0..n-1` and the `date` column is sorted ascending;
the sortedness of `date` is preserved by every subsequent trace of method
calls (none of them assigns to `date`); with neither a DataFrame nor a file
path, `__init__` raises `ValueError`. -/
theorem claim_C9_init_invariants (lib : TALib) (pyn : PyNanceInd) (tk : String)
    (dfOpt : Option DataFrame) (fileOpt : Option Grid) (df : DataFrame)
    (hwf0 : ∀ d, dfOpt = some d → d.wf)
    (hinit : stockInit tk dfOpt fileOpt = Except.ok df) :
    (∀ nm ∈ df.names, lowerName nm = nm) ∧
      (∃ vs, df.getCol "ticker" = some vs ∧ ∀ v ∈ vs, v = Value.str tk) ∧
      df.index = List.range df.index.length ∧
      (∃ vs, df.getCol "date" = some vs ∧ vs.Sorted Value.le) ∧
      (∀ trace df', runStock lib pyn trace df = some df' →
        ∃ vs, df'.getCol "date" = some vs ∧ vs.Sorted Value.le) ∧
      stockInit tk none none = Except.error PyErr.valueError := by
  obtain ⟨df0, hwfd, hfrom⟩ := stockInit_ok hwf0 hinit
  obtain ⟨-, hrange, hlower, htick, hdate⟩ := stockInitFrom_spec tk df0 df hwfd hfrom
  refine ⟨?_, htick, hrange, hdate, ?_, rfl⟩
  · intro nm hnm
    rcases hlower nm hnm with rfl | ⟨s, rfl⟩
    · decide
    · exact lowerName_idem s
  · intro trace df' hrun
    obtain ⟨vs, hvs, hsorted⟩ := hdate
    refine ⟨vs, ?_, hsorted⟩
    rw [(runStock_spec lib pyn trace df df' hrun).2.2 "date"
      (fun m _ => outputColsS_date m), hvs]

theorem claim_C9_witness :
    stockInit "MSFT"
        (some (DataFrame.mk [("Date", [Value.vdate 2021 6 7]),
          ("Close", [Value.num 12])] [0])) none =
      Except.ok (DataFrame.mk [("date", [Value.vdate 2021 6 7]),
        ("close", [Value.num 12]), ("ticker", [Value.str "MSFT"])] [0]) ∧
      stockInit "MSFT" none none = Except.error PyErr.valueError ∧
      (DataFrame.mk [("date", [Value.vdate 2021 6 7]), ("close", [Value.num 12]),
          ("ticker", [Value.str "MSFT"])] [0]).index =
        List.range (DataFrame.mk [("date", [Value.vdate 2021 6 7]),
          ("close", [Value.num 12]), ("ticker", [Value.str "MSFT"])] [0]).index.length ∧
      lowerName "close" = "close" := by
  have h := claim_C9_init_invariants idTALib idPyNance "MSFT"
    (some (DataFrame.mk [("Date", [Value.vdate 2021 6 7]), ("Close", [Value.num 12])] [0]))
    none
    (DataFrame.mk [("date", [Value.vdate 2021 6 7]), ("close", [Value.num 12]),
      ("ticker", [Value.str "MSFT"])] [0])
    (fun d hd => by
      cases hd
      intro c hc
      fin_cases hc <;> rfl)
    rfl
  exact ⟨rfl, h.2.2.2.2.2, h.2.2.1,
    h.1 "close" (by decide)⟩

/-- Claim C10: `adjust_for_splits` never divides by zero: zero split factors
are first replaced by 1, the row-wise division is then defined on every row
(the method returns instead of raising), and on rows whose split factor was
0 the adjusted close equals the raw close. -/
theorem claim_C10_no_div_by_zero (lib : TALib) (pyn : PyNanceInd) (df : DataFrame)
    (close splits : List Value)
    (hc : df.getCol "close" = some close)
    (hsp : df.getCol "stock splits" = some splits)
    (hlen : close.length = splits.length)
    (hcq : ∀ v ∈ close, ∃ q : ℚ, v = Value.num q)
    (hsq : ∀ v ∈ splits, (∃ q : ℚ, v = Value.num q) ∨ v = Value.na) :
    ∃ adj, stepStock lib pyn SMethod.adjustForSplits df =
        some (df.setCol "adjusted_close" adj) ∧
      (∀ i, i < close.length →
        divVal (close.getD i Value.na) (replaceZeroOne (splits.getD i Value.na)) =
          some (adj.getD i Value.na)) ∧
      ∀ i, i < close.length → splits.getD i Value.na = Value.num 0 →
        replaceZeroOne (splits.getD i Value.na) = Value.num 1 ∧
          adj.getD i Value.na = close.getD i Value.na := by
  obtain ⟨adj, hz, -, hdiv, hzero⟩ := zipDivM_replace close splits hlen hcq hsq
  have hmem : "stock splits" ∈ df.names := lookupCol_mem_names hsp
  refine ⟨adj, ?_, hdiv, ?_⟩
  · rw [stepStock, hc, Option.some_bind, if_pos hmem, hsp, Option.some_bind, hz,
      Option.map_some']
  · intro i hi h0
    refine ⟨?_, hzero i hi h0⟩
    rw [h0]
    simp [replaceZeroOne]

theorem claim_C10_witness :
    stepStock idTALib idPyNance SMethod.adjustForSplits
        (DataFrame.mk [("close", [Value.num 7]), ("stock splits", [Value.num 0])] [0]) =
      some ((DataFrame.mk [("close", [Value.num 7]),
        ("stock splits", [Value.num 0])] [0]).setCol "adjusted_close"
          [Value.num (7 / 1)]) ∧
      replaceZeroOne (Value.num 0) = Value.num 1 ∧
      Value.num ((7 : ℚ) / 1) = Value.num 7 := by
  have hval : stepStock idTALib idPyNance SMethod.adjustForSplits
      (DataFrame.mk [("close", [Value.num 7]), ("stock splits", [Value.num 0])] [0]) =
    some ((DataFrame.mk [("close", [Value.num 7]),
      ("stock splits", [Value.num 0])] [0]).setCol "adjusted_close"
        [Value.num (7 / 1)]) := rfl
  obtain ⟨adj, hstep, hdiv, hzero⟩ := claim_C10_no_div_by_zero idTALib idPyNance
    (DataFrame.mk [("close", [Value.num 7]), ("stock splits", [Value.num 0])] [0])
    [Value.num 7] [Value.num 0] (by decide) (by decide) (by decide)
    (fun v hv => by
      rw [List.mem_singleton] at hv
      subst hv
      exact ⟨7, rfl⟩)
    (fun v hv => by
      rw [List.mem_singleton] at hv
      subst hv
      exact Or.inl ⟨0, rfl⟩)
  have h1 := Option.some.inj (hstep.symm.trans hval)
  have h2 := congrArg (fun d => DataFrame.getCol d "adjusted_close") h1
  simp only [getCol_setCol_self, Option.some.injEq] at h2
  subst h2
  exact ⟨hval, rfl, (hzero 0 (by decide) rfl).2⟩

end StockSent
